import Mathlib

/-!
Verification development for the BCF block-cave fragmentation engine.

The Python engine (src/engine/*.py) is shallowly embedded over exact
rationals.  Python's `random.Random` object is modelled by an abstract
oracle `RNG`: one stream per generator method (`random`, `expovariate`,
`gauss`, `lognormvariate`, `randrange`), together with a per-method call
counter `RState`.  Quantifying over all oracles covers every possible
random stream; range facts that the real generator guarantees (for
example `0 <= random() < 1`, `expovariate >= 0`) appear as explicit
hypotheses where a theorem needs them.

Transcendental functions of the source (`math.exp`, `math.log`, `10**x`,
`math.sqrt`, cube root, `math.tan(math.radians(30))`) are passed as
explicit function parameters; theorems either hold for every choice of
these parameters or instantiate them concretely.  Unbounded source loops
(the log-normal rejection loop, the joint-set de-duplication retry loop,
the secondary-breakage stack loop) are modelled with an explicit fuel
argument returning `Option`/a result variant; all bounded loops are
structural recursion.
-/

/-- Oracle model of `random.Random`: one output stream per method used by
the engine.  `expo lam i` is the value of the `i`-th `expovariate(lam)`
call, `gauss mu sigma i` the `i`-th `gauss(mu, sigma)` call,
`lognorm mu sigma i` the `i`-th `lognormvariate(mu, sigma)` call, and
`randr n i` the `i`-th `randrange(0, n)` call (reduced `% n` at the use
site so that the modelled value is always in range). -/
structure RNG where
  rand : ℕ → ℚ
  expo : ℚ → ℕ → ℚ
  gauss : ℚ → ℚ → ℕ → ℚ
  lognorm : ℚ → ℚ → ℕ → ℚ
  randr : ℕ → ℕ → ℕ

/-- Call counters for each `RNG` stream. -/
structure RState where
  nRand : ℕ
  nExpo : ℕ
  nGauss : ℕ
  nLognorm : ℕ
  nRandr : ℕ
deriving DecidableEq, Repr

/-- Initial state: no draws consumed yet. -/
def RState.init : RState := ⟨0, 0, 0, 0, 0⟩

def bumpRand (s : RState) : RState := ⟨s.nRand + 1, s.nExpo, s.nGauss, s.nLognorm, s.nRandr⟩

def bumpExpo (s : RState) : RState := ⟨s.nRand, s.nExpo + 1, s.nGauss, s.nLognorm, s.nRandr⟩

def bumpGauss (s : RState) : RState := ⟨s.nRand, s.nExpo, s.nGauss + 1, s.nLognorm, s.nRandr⟩

def bumpLognorm (s : RState) : RState := ⟨s.nRand, s.nExpo, s.nGauss, s.nLognorm + 1, s.nRandr⟩

def bumpRandr (s : RState) : RState := ⟨s.nRand, s.nExpo, s.nGauss, s.nLognorm, s.nRandr + 1⟩

/-- Python `int()` truncation toward zero. -/
def pyInt (q : ℚ) : ℤ := if 0 ≤ q then ⌊q⌋ else ⌈q⌉

/-- Python list slicing `l[:n]`, including the negative-index case. -/
def pySlice (n : ℤ) (l : List α) : List α :=
  if 0 ≤ n then l.take n.toNat else l.take ((l.length : ℤ) + n).toNat

/-- Python `list(dict.fromkeys(l))`: de-duplicate keeping first occurrences. -/
def dedupFirst (l : List ℕ) : List ℕ :=
  l.foldl (fun acc x => if x ∈ acc then acc else acc ++ [x]) []

/-! ## Data model (src/engine/models.py) -/

/-- Embeds `RockMass`; `IBS` is the optional precomputed block strength. -/
structure RockMass where
  rock_type : String
  MRMR : ℚ
  IRS : ℚ
  IBS : Option ℚ
  mi : ℚ
  frac_freq : ℚ
  frac_condition : ℤ
  density : ℚ
deriving DecidableEq, Repr

/-- Embeds `SpacingDist`.  The source reads these fields through
`dict.get`/`getattr` with the same keys; they are always present here. -/
structure SpacingDist where
  type : String
  min : ℚ
  mean : ℚ
  max_or_90pct : ℚ
  max_obs : Option ℚ
deriving DecidableEq, Repr

/-- Embeds `JointSet`. -/
structure JointSet where
  name : String
  mean_dip : ℚ
  dip_range : ℚ
  mean_dip_dir : ℚ
  dip_dir_range : ℚ
  spacing : SpacingDist
  JC : ℤ
deriving DecidableEq, Repr

instance : Inhabited JointSet := ⟨⟨"", 0, 0, 0, 0, ⟨"trunc_exp", 0, 0, 0, none⟩, 0⟩⟩

/-- Embeds `CaveFace`. -/
structure CaveFace where
  dip : ℚ
  dip_dir : ℚ
  stress_dip : ℚ
  stress_strike : ℚ
  stress_normal : ℚ
  allow_stress_fractures : Bool
  spalling_pct : ℚ
deriving DecidableEq, Repr

/-- Embeds `Defaults`. -/
structure Defaults where
  LHD_cutoff_m3 : ℚ
  seed : Option ℤ
  arching_pct : ℚ
  arch_stress_conc : ℚ
  stress_frac_trace_min : ℚ
  stress_frac_trace_mean : ℚ
  stress_frac_trace_max : ℚ
  tension_factor : ℚ
deriving DecidableEq, Repr

/-- Embeds `SecondaryRun`. -/
structure SecondaryRun where
  draw_height : ℚ
  max_caving_height : ℚ
  swell_factor : ℚ
  active_draw_width : ℚ
  added_fines_pct : ℚ
  rate_cm_day : ℚ
  drawbell_upper_width : ℚ
  drawbell_lower_width : ℚ
deriving DecidableEq, Repr

/-- Embeds `PrimaryBlock`. -/
structure PrimaryBlock where
  V : ℚ
  Omega : ℚ
  joints_inside : ℕ
  A : ℚ
  lambda_max : ℚ
deriving DecidableEq, Repr

/-- Embeds `SecondaryBlock`. -/
structure SecondaryBlock where
  V : ℚ
  Omega : ℚ
  joints_inside : ℕ
deriving DecidableEq, Repr

instance : Inhabited SecondaryBlock := ⟨⟨0, 0, 0⟩⟩

/-! ## Distribution sampler (src/engine/distributions.py) -/

/-- Rejection loop of `sample_truncated_exponential`: at most the given
number of attempts (10000 at the call site), then the uniform fallback
`lo + random() * (hi - lo)`. -/
def truncExpGo (m : RNG) (lam lo hi : ℚ) : ℕ → RState → ℚ × RState
  | 0, s => (lo + m.rand s.nRand * (hi - lo), bumpRand s)
  | Nat.succ k, s =>
      let x := m.expo lam s.nExpo
      let v := lo + x
      if v ≤ hi then (v, bumpExpo s) else truncExpGo m lam lo hi k (bumpExpo s)

/-- Embeds `sample_truncated_exponential`. -/
def sample_truncated_exponential (m : RNG) (mean lo hi : ℚ) (s : RState) : ℚ × RState :=
  if hi ≤ lo then (lo, s)
  else
    let lam := max (1e-6) (1 / max (1e-6) (mean - 0.2 * lo))
    truncExpGo m lam lo hi 10000 s

/-- Embeds `sample_normal_range`: a Gaussian draw clamped into `[lo, hi]`. -/
def sample_normal_range (m : RNG) (lo mean hi : ℚ) (s : RState) : ℚ × RState :=
  let sigma := max (1e-6) ((hi - lo) / 6)
  let x := m.gauss mean sigma s.nGauss
  (max lo (min hi x), bumpGauss s)

/-- Embeds `sample_uniform`. -/
def sample_uniform (m : RNG) (lo hi : ℚ) (s : RState) : ℚ × RState :=
  (lo + m.rand s.nRand * (hi - lo), bumpRand s)

/-- Uncapped rejection loop of `sample_lognormal_capped` (`while True` in
the source), modelled with fuel: `none` means the loop has not returned
within `fuel` iterations. -/
def lognormGo (m : RNG) (mu sigma maxObs : ℚ) : ℕ → RState → Option (ℚ × RState)
  | 0, _ => none
  | Nat.succ k, s =>
      let v := m.lognorm mu sigma s.nLognorm
      if v ≤ maxObs then some (v, bumpLognorm s) else lognormGo m mu sigma maxObs k (bumpLognorm s)

/-- Embeds `sample_lognormal_capped`: fits mu/sigma from the 10th/90th
percentiles, then rejection-samples below `maxObs` with no iteration cap. -/
def sample_lognormal_capped (hlog : ℚ → ℚ) (m : RNG) (p10 p90 maxObs : ℚ) (fuel : ℕ)
    (s : RState) : Option (ℚ × RState) :=
  let z90 : ℚ := 1.2815515655446004
  let z10 : ℚ := -1.2815515655446004
  let y10 := hlog (max (1e-6) p10)
  let y90 := hlog (max (1e-6) p90)
  let sigma := (y90 - y10) / (z90 - z10)
  let mu := y10 - sigma * z10
  lognormGo m mu sigma maxObs fuel s

/-- Embeds `sample_spacing`: normalizes the distribution record and
dispatches on its type tag; unknown tags fall back to `trunc_exp`. -/
def sample_spacing (hlog : ℚ → ℚ) (m : RNG) (dist : SpacingDist) (fuel : ℕ)
    (s : RState) : Option (ℚ × RState) :=
  let t := dist.type
  let lo := dist.min
  let m0 := dist.mean
  let hi0 := dist.max_or_90pct
  let hi := if hi0 ≤ lo then max (lo + 1e-3) (lo * 1.05) else hi0
  let mean := if lo < m0 ∧ m0 < hi then m0 else lo + 0.35 * (hi - lo)
  if t = "trunc_exp" then some (sample_truncated_exponential m mean lo hi s)
  else if t = "normal" then some (sample_normal_range m lo mean hi s)
  else if t = "uniform" then some (sample_uniform m lo hi s)
  else if t = "lognormal" then
    let maxObs := dist.max_obs.getD (hi * 3)
    sample_lognormal_capped hlog m (mean * 0.6) (mean * 1.4) maxObs fuel s
  else some (sample_truncated_exponential m mean lo hi s)

/-! ## Strength model (src/engine/strength.py) -/

/-- Embeds `compute_IBS`. -/
def compute_IBS (IRS frac_freq : ℚ) (frac_condition : ℤ) : ℚ :=
  let ff_norm := max 0 (min 1 (frac_freq / 6))
  let cond_norm := max 0 (min 1 ((frac_condition : ℚ) / 40))
  let severity := ff_norm * (1 - 0.5 * cond_norm)
  let factor := 0.8 - (0.8 - 0.32) * severity
  max (0.05 * IRS) (factor * IRS)

/-- Embeds `IRS_to_IRSR`: first descending threshold strictly exceeded wins. -/
def IRS_to_IRSR (IRS : ℚ) : ℤ :=
  if IRS > 185 then 20
  else if IRS > 165 then 18
  else if IRS > 145 then 16
  else if IRS > 125 then 14
  else if IRS > 104 then 12
  else if IRS > 85 then 10
  else if IRS > 65 then 8
  else if IRS > 45 then 6
  else if IRS > 25 then 4
  else if IRS > 5 then 2
  else if IRS > 0 then 0
  else 0

/-- Embeds `compute_RMS`; `hpow10` models `10.0 ** x`. -/
def compute_RMS (hpow10 : ℚ → ℚ) (MRMR IRS IRSR : ℚ) : ℚ :=
  0.8 * IRS * hpow10 ((MRMR - IRSR) / 80)

/-- Embeds `block_strength`; `hexp`/`hlog` model `math.exp`/`math.log`. -/
def block_strength (hexp hlog : ℚ → ℚ) (volume_m3 : ℚ) (contains_joints : Bool)
    (IRS IBS RMS : ℚ) : ℚ :=
  let v := max (1e-6) volume_m3
  if ¬ contains_joints then
    if v ≤ 1 then IRS - (IRS - IBS) * v / 1 else IBS
  else
    let base0 := if v ≤ 1 then IRS - (IRS - IBS) * min v 1 / 1 else IBS
    let base := base0 * 0.7
    if v ≥ 100 then RMS
    else if base ≤ 0 then RMS
    else
      let k := hlog (max (1e-6) (base / RMS)) / max (1e-6) ((100 : ℚ) - 1)
      max RMS (base * hexp (-k * (v - 1)))

/-! ## Primary block generator (src/engine/primary.py) -/

/-- Embeds `_spacing_mean` (the record always carries its mean here). -/
def spacingMean (sp : SpacingDist) : ℚ := sp.mean

/-- Generic first-segment piecewise-linear interpolation, mirroring the
source loops `for i: if xs[i] <= x <= xs[i+1]: return interp`. -/
def piecewiseLinear : List (ℚ × ℚ) → ℚ → Option ℚ
  | p :: q :: rest, x =>
      if p.1 ≤ x ∧ x ≤ q.1 then
        some (p.2 + (x - p.1) / (q.1 - p.1) * (q.2 - p.2))
      else piecewiseLinear (q :: rest) x
  | _, _ => none

/-- Embeds `prob_from_JC`: piecewise-linear over JC in [0, 40], with the
source's trailing `return ys[-1]` fallback. -/
def prob_from_JC (JC : ℤ) : ℚ :=
  let j : ℚ := (max 0 (min 40 JC) : ℤ)
  (piecewiseLinear [(0, 0.05), (10, 0.25), (20, 0.50), (30, 0.75), (40, 0.92)] j).getD 0.92

/-- Embeds `prob_weight_from_volume`: the nearest of the keys
{15, 20, 25, 30} to JC (first wins ties, matching Python `min` over the
dict's insertion order) selects the rate constant. -/
def prob_weight_from_volume (hexp : ℚ → ℚ) (V : ℚ) (JC : ℤ) : ℚ :=
  let ks : List (ℤ × ℚ) := [(15, 0.015), (20, 0.020), (25, 0.028), (30, 0.036)]
  let key := ks.foldl (fun best p => if (JC - p.1).natAbs < (JC - best.1).natAbs then p else best)
    (15, 0.015)
  1 - hexp (-key.2 * max 0 V)

/-- Embeds `shear_FOS`; `tan30` models `math.tan(math.radians(30.0))` and
`hsqrt` models `math.sqrt`. -/
def shear_FOS (tan30 : ℚ) (hsqrt : ℚ → ℚ) (cave : CaveFace) (JC : ℤ) : ℚ :=
  let Cj := 0.015 * (JC : ℚ)
  let sigma_n := max 0 cave.stress_normal
  let tau := 0.5 * hsqrt (cave.stress_dip ^ 2 + cave.stress_strike ^ 2)
  (Cj + sigma_n * tan30) / max (1e-6) tau

/-- Calibration table (F, mean spacing) of `maybe_add_stress_fracture_set`. -/
def stressFracTable : List (ℚ × ℚ) :=
  [(0.1, 0.01), (0.2, 0.03), (0.4, 0.05), (0.5, 0.07), (0.7, 0.10),
   (0.9, 0.20), (1.0, 0.30), (1.2, 0.50), (1.5, 1.00), (2.0, 10.00)]

/-- Embeds `maybe_add_stress_fracture_set`.  The source takes the RNG but
never draws from it, so no `RNG`/`RState` appears here. -/
def maybe_add_stress_fracture_set (rock : RockMass) (cave : CaveFace) : List JointSet :=
  let sigma1 := max cave.stress_dip (max cave.stress_strike cave.stress_normal)
  let IBS := rock.IBS.getD (compute_IBS rock.IRS rock.frac_freq rock.frac_condition)
  if IBS ≤ 0 then []
  else
    let F := sigma1 / IBS
    if F ≥ 2 ∨ F ≤ 0 then []
    else
      let mean_spacing := if F < 0.1 then 0.01 else (piecewiseLinear stressFracTable F).getD 10
      [⟨"StressFractures", cave.dip, 0, cave.dip_dir, 0,
        ⟨"trunc_exp", 0.5 * mean_spacing, mean_spacing, 2 * mean_spacing, none⟩, 0⟩]

/-- Embeds `omega_from_dims`: the source sorts the triple and uses only
the largest and smallest entries. -/
def omega_from_dims (a b c : ℚ) : ℚ :=
  let mx := max a (max b c)
  let mn := min a (min b c)
  let r := max 1 (mx / max (1e-6) mn)
  1 + 0.67 * (r - 1)

/-- Raw spacing samples of `approximate_block_dims`, one per chosen set. -/
def sampleDims (hlog : ℚ → ℚ) (m : RNG) (fuel : ℕ) :
    List JointSet → RState → Option (List ℚ × RState)
  | [], s => some ([], s)
  | js :: rest, s =>
      match sample_spacing hlog m js.spacing fuel s with
      | none => none
      | some (d, s1) =>
          match sampleDims hlog m fuel rest s1 with
          | none => none
          | some (ds, s2) => some (d :: ds, s2)

/-- Embeds `approximate_block_dims`: sample one spacing per set, then
floor each dimension at 0.05. -/
def approximate_block_dims (hlog : ℚ → ℚ) (m : RNG) (fuel : ℕ) (sets : List JointSet)
    (s : RState) : Option (List ℚ × RState) :=
  match sampleDims hlog m fuel sets s with
  | none => none
  | some (ds, s1) => some (ds.map (fun d => max 0.05 d), s1)

/-- Running cumulative sums, as built by `itertools.accumulate` inside
Python's `random.choices`. -/
def cumsum : List ℚ → ℚ → List ℚ
  | [], _ => []
  | x :: xs, acc => (acc + x) :: cumsum xs (acc + x)

/-- Python `bisect.bisect_right(cum, x, 0, hi)` on a sorted list: the
number of entries of `cum[0:hi]` that are `<= x`. -/
def bisectRight (cum : List ℚ) (x : ℚ) (hi : ℕ) : ℕ :=
  (cum.take hi).countP (fun c => decide (c ≤ x))

/-- Embeds `r.choices(range(n), weights=weights, k=3)` as implemented by
CPython: three `random()` draws located in the cumulative-weight list. -/
def pyChoices3 (m : RNG) (weights : List ℚ) (s : RState) : List ℕ × RState :=
  let cum := cumsum weights 0
  let total := cum.getLastD 0
  let hi := weights.length - 1
  let i0 := bisectRight cum (m.rand s.nRand * total) hi
  let s1 := bumpRand s
  let i1 := bisectRight cum (m.rand s1.nRand * total) hi
  let s2 := bumpRand s1
  let i2 := bisectRight cum (m.rand s2.nRand * total) hi
  ([i0, i1, i2], bumpRand s2)

/-- The `while len(idxs) < 3` padding loop of `generate_primary_blocks`:
append a `randrange(0, nsets)` draw and de-duplicate, with fuel since the
source loop is unbounded. -/
def padIdxs (m : RNG) (nsets : ℕ) : ℕ → List ℕ → RState → Option (List ℕ × RState)
  | 0, idxs, s => if 3 ≤ idxs.length then some (idxs, s) else none
  | Nat.succ k, idxs, s =>
      if 3 ≤ idxs.length then some (idxs, s)
      else
        let j := m.randr nsets s.nRandr % nsets
        padIdxs m nsets k (dedupFirst (idxs ++ [j])) (bumpRandr s)

/-- Final block assembly at the single exit point of the per-block loop in
`generate_primary_blocks`: `V`, `A`, `lambda_max` and `Omega` are all
computed from the same (possibly extended) dimensions. -/
def mkPrimaryBlock (a b c : ℚ) (J : ℕ) : PrimaryBlock :=
  ⟨max (1e-6) (a * b * c), omega_from_dims a b c, J, 2 * (a * b + b * c + c * a),
   max a (max b c)⟩

/-- The `for js, dim in zip(chosen, [a, b, c])` joint-cut loop of
`generate_primary_blocks`.  `dim` holds the value captured when the zip
list was built, while `a b c` are the current (possibly already extended)
dimensions, exactly as in the source. -/
def extLoop (hexp hlog : ℚ → ℚ) (tan30 : ℚ) (hsqrt : ℚ → ℚ) (m : RNG) (cave : CaveFace)
    (fuel : ℕ) : List (JointSet × ℚ) → ℚ → ℚ → ℚ → ℕ → RState →
    Option (ℚ × ℚ × ℚ × ℕ × RState)
  | [], a, b, c, J, s => some (a, b, c, J, s)
  | (js, dim) :: rest, a, b, c, J, s =>
      let P0 := prob_from_JC js.JC
      let P := if shear_FOS tan30 hsqrt cave js.JC < 1 then min 1 (P0 + 0.20) else P0
      let V_tmp := a * b * c
      let Pw := prob_weight_from_volume hexp V_tmp (max 15 (min 30 js.JC))
      let u := m.rand s.nRand
      let s1 := bumpRand s
      if u > max P Pw then
        match sample_spacing hlog m js.spacing fuel s1 with
        | none => none
        | some (ext, s2) =>
            if dim = a then extLoop hexp hlog tan30 hsqrt m cave fuel rest (a + ext) b c (J + 1) s2
            else if dim = b then
              extLoop hexp hlog tan30 hsqrt m cave fuel rest a (b + ext) c (J + 1) s2
            else extLoop hexp hlog tan30 hsqrt m cave fuel rest a b (c + ext) (J + 1) s2
      else extLoop hexp hlog tan30 hsqrt m cave fuel rest a b c J s1

/-- One iteration of the per-block loop of `generate_primary_blocks`. -/
def genOneBlock (hexp hlog : ℚ → ℚ) (tan30 : ℚ) (hsqrt : ℚ → ℚ) (m : RNG) (cave : CaveFace)
    (all_sets : List JointSet) (fuel : ℕ) (s : RState) : Option (PrimaryBlock × RState) :=
  let weights := all_sets.map (fun js => 1 / max (1e-6) (spacingMean js.spacing))
  let pc := pyChoices3 m weights s
  let idxs1 := dedupFirst pc.1
  match padIdxs m all_sets.length fuel idxs1 pc.2 with
  | none => none
  | some (idxs, s2) =>
      let chosen := idxs.map (fun i => all_sets.getD i default)
      match approximate_block_dims hlog m fuel chosen s2 with
      | none => none
      | some (dims, s3) =>
          let d0 := dims.getD 0 0
          let d1 := dims.getD 1 0
          let d2 := dims.getD 2 0
          let a := max d0 (max d1 d2)
          let c := min d0 (min d1 d2)
          let b := d0 + d1 + d2 - a - c
          match extLoop hexp hlog tan30 hsqrt m cave fuel (chosen.zip [a, b, c]) a b c 0 s3 with
          | none => none
          | some (a1, b1, c1, J, s4) => some (mkPrimaryBlock a1 b1 c1 J, s4)

/-- Result of the primary generator: the configuration error raised when
fewer than 3 usable joint sets exist, fuel exhaustion of an unbounded
source loop, or the produced block list with the final RNG state. -/
inductive GenResult where
  | configError
  | outOfFuel
  | ok (blocks : List PrimaryBlock) (s : RState)
deriving DecidableEq, Repr

/-- The `for _ in range(n_blocks)` loop of `generate_primary_blocks`. -/
def genLoop (hexp hlog : ℚ → ℚ) (tan30 : ℚ) (hsqrt : ℚ → ℚ) (m : RNG) (cave : CaveFace)
    (all_sets : List JointSet) (fuel : ℕ) : ℕ → List PrimaryBlock → RState → GenResult
  | 0, acc, s => .ok acc s
  | Nat.succ k, acc, s =>
      match genOneBlock hexp hlog tan30 hsqrt m cave all_sets fuel s with
      | none => .outOfFuel
      | some (b, s1) => genLoop hexp hlog tan30 hsqrt m cave all_sets fuel k (acc ++ [b]) s1

/-- Embeds `generate_primary_blocks`.  The `defaults` record is accepted
but, as in the source body, never read. -/
def generate_primary_blocks (hexp hlog : ℚ → ℚ) (tan30 : ℚ) (hsqrt : ℚ → ℚ) (m : RNG)
    (n_blocks : ℕ) (rock : RockMass) (joints : List JointSet) (cave : CaveFace)
    (defaults : Defaults) (fuel : ℕ) (s : RState) : GenResult :=
  let stress_sets := if cave.allow_stress_fractures then maybe_add_stress_fracture_set rock cave
    else []
  let all_sets := joints ++ stress_sets
  if all_sets.length < 3 then .configError
  else genLoop hexp hlog tan30 hsqrt m cave all_sets fuel n_blocks [] s

/-! ## Secondary fragmentation simulator (src/engine/secondary.py) -/

/-- Embeds `G_MPAPER_M = 9.80665 / 1e6`. -/
def G_MPAPER_M : ℚ := 9.80665 / 1000000

/-- Embeds `caved_height`. -/
def caved_height (draw_height swell_factor : ℚ) : ℚ :=
  draw_height * max 1 swell_factor

/-- Pairs of `cave_pressure_MPa` after the source's ascending sort. -/
def pressPairs : List (ℚ × ℚ) :=
  [(0.2, 0.18), (0.25, 0.20), (1 / 3, 0.23), (0.5, 0.30), (1, 0.44)]

/-- Interpolation loop of `cave_pressure_MPa`: for consecutive pairs the
source checks `pairs[i+1].ratio <= r <= pairs[i].ratio` and interpolates
from the higher pair toward the lower one. -/
def pressLoop (r : ℚ) : List (ℚ × ℚ) → Option ℚ
  | p :: q :: rest =>
      if q.1 ≤ r ∧ r ≤ p.1 then some (q.2 + (r - q.1) / (p.1 - q.1) * (p.2 - q.2))
      else pressLoop r (q :: rest)
  | _ => none

/-- Embeds `cave_pressure_MPa`. -/
def cave_pressure_MPa (density Hc width swell_factor : ℚ) : ℚ :=
  if Hc ≤ 0 then 0
  else
    let r0 := max (1e-6) (width / Hc)
    let frac := if r0 ≥ (pressPairs.getD 0 (0, 0)).1 then (pressPairs.getD 0 (0, 0)).2
      else if r0 ≤ (pressPairs.getLastD (0, 0)).1 then (pressPairs.getLastD (0, 0)).2
      else (pressLoop r0 pressPairs).getD (pressPairs.getLastD (0, 0)).2
    let F := max 1 swell_factor
    let rho_broken := density / F
    frac * rho_broken * G_MPAPER_M * Hc

/-- Embeds `draw_rate_factor`. -/
def draw_rate_factor (hexp : ℚ → ℚ) (d_cm_day : ℚ) : ℚ :=
  0.66 * hexp (0.023 * d_cm_day)

/-- Embeds `pressure_factor`. -/
def pressure_factor (P_MPa : ℚ) : ℚ :=
  if P_MPa ≤ 1 then 1
  else if P_MPa ≥ 12 then 0.5
  else 1 - 0.5 * ((P_MPa - 1) / (12 - 1))

/-- First table entry whose threshold is at or above the probe, mirroring
the `for thr, p in t: if x <= thr: return p` loops of the source. -/
def lookupFirstLe : List (ℚ × ℚ) → ℚ → Option ℚ
  | [], _ => none
  | (thr, p) :: rest, x => if x ≤ thr then some p else lookupFirstLe rest x

/-- Calibration table used by `split_prob_from_Omega` without joints. -/
def table6 : List (ℚ × ℚ) :=
  [(0.999, 0.10), (2, 0.20), (3, 0.30), (4, 0.40), (5, 0.50),
   (6, 0.60), (7, 0.70), (8, 0.80), (9, 0.90), (10.0001, 1.0)]

/-- Calibration table used by `split_prob_from_Omega` with joints
(percent values). -/
def table7 : List (ℚ × ℚ) :=
  [(1, 20), (2, 40), (3, 60), (4, 80), (5, 100),
   (6, 100), (7, 100), (8, 100), (9, 100), (10.0001, 100)]

/-- Embeds `split_prob_from_Omega`, including the fallthrough
`return t[-1][1] / 100.0` after the table scan. -/
def split_prob_from_Omega (Omega : ℚ) (with_joints : Bool) : ℚ :=
  let t := if with_joints then table7 else table6
  match lookupFirstLe t Omega with
  | some p => if p > 1 then p / 100 else p
  | none => (t.getLastD (0, 0)).2 / 100

/-- Embeds `cushioning_factor`. -/
def cushioning_factor (fines_pct : ℚ) : ℚ :=
  let pairs : List (ℚ × ℚ) :=
    [(5, 0.95), (10, 0.90), (15, 0.85), (20, 0.80), (25, 0.75),
     (30, 0.70), (35, 0.60), (40, 0.50), (50, 0.40), (60, 0.30)]
  if fines_pct ≤ 0 then 1
  else (lookupFirstLe pairs fines_pct).getD 0.30

/-- Embeds `rounding_fines_pct`. -/
def rounding_fines_pct (mu_deg : ℚ) : ℚ := mu_deg / 5 + 3

/-- The `while stack` breakage loop of `run_secondary` for one primary
block's descent, with explicit fuel (the source loop terminates because
every cycle height is at least 1, but the embedding keeps termination
extrinsic).  Stack entries are `(V, Omega, joints_inside, remaining z)`;
accumulates emitted blocks and fines mass. -/
def secLoop (hexp hlog : ℚ → ℚ) (m : RNG) (IRS IBS RMS Fp Fr cushPct mu_scatter_deg : ℚ) :
    ℕ → List (ℚ × ℚ × ℕ × ℚ) → List SecondaryBlock → ℚ → RState →
    Option (List SecondaryBlock × ℚ × RState)
  | _, [], out, fines, s => some (out, fines, s)
  | 0, _ :: _, _, _, _ => none
  | Nat.succ k, (V, Omega, J, z) :: rest, out, fines, s =>
      let contains_joints := decide (0 < J)
      let sigma_c := block_strength hexp hlog V contains_joints IRS IBS RMS
      let Fc : ℚ := 1
      let H_cycle := max 1 (Fc * Fp * Fr * sigma_c)
      let p0 := split_prob_from_Omega Omega contains_joints
      let p := if V > 1 then p0 * cushioning_factor cushPct else p0
      let u := m.rand s.nRand
      let s1 := bumpRand s
      if u < p then
        let f := rounding_fines_pct mu_scatter_deg / 100
        let childV := 0.5 * V * (1 - f)
        let childOmega := max 1 (0.5 * Omega)
        let new_z := z - H_cycle
        if new_z ≤ 0 then
          secLoop hexp hlog m IRS IBS RMS Fp Fr cushPct mu_scatter_deg k rest
            (out ++ [⟨childV, childOmega, J⟩, ⟨childV, childOmega, J⟩]) (fines + V * f) s1
        else
          secLoop hexp hlog m IRS IBS RMS Fp Fr cushPct mu_scatter_deg k
            ((childV, childOmega, J, new_z) :: (childV, childOmega, J, new_z) :: rest)
            out (fines + V * f) s1
      else
        let new_z := z - H_cycle
        if new_z ≤ 0 then
          secLoop hexp hlog m IRS IBS RMS Fp Fr cushPct mu_scatter_deg k rest
            (out ++ [⟨V, Omega, J⟩]) fines s1
        else
          secLoop hexp hlog m IRS IBS RMS Fp Fr cushPct mu_scatter_deg k
            ((V, Omega, J, new_z) :: rest) out fines s1

/-- The `for blk in prim_blocks` loop of `run_secondary`: each primary
block seeds its own stack; emitted blocks and fines accumulate. -/
def primLoop (hexp hlog : ℚ → ℚ) (m : RNG) (IRS IBS RMS Fp Fr cushPct mu_scatter_deg dh : ℚ)
    (fuel : ℕ) : List PrimaryBlock → List SecondaryBlock → ℚ → RState →
    Option (List SecondaryBlock × ℚ × RState)
  | [], out, fines, s => some (out, fines, s)
  | blk :: rest, out, fines, s =>
      match secLoop hexp hlog m IRS IBS RMS Fp Fr cushPct mu_scatter_deg fuel
          [(blk.V, blk.Omega, blk.joints_inside, dh)] out fines s with
      | none => none
      | some (out1, fines1, s1) =>
          primLoop hexp hlog m IRS IBS RMS Fp Fr cushPct mu_scatter_deg dh fuel rest
            out1 fines1 s1

/-- Arching post-process loop of `run_secondary`: each selected index is
replaced by one half and the other half is appended. -/
def archLoop : List SecondaryBlock → List ℕ → List SecondaryBlock
  | out, [] => out
  | out, idx :: rest =>
      let b := out.getD idx default
      let childV := 0.5 * b.V
      let childO := max 1 (0.5 * b.Omega)
      archLoop ((out.set idx ⟨childV, childO, b.joints_inside⟩) ++
        [⟨childV, childO, b.joints_inside⟩]) rest

/-- Embeds `run_secondary`.  `shuf` abstracts `r.shuffle` (any list
permutation); the result carries the emitted blocks, the accumulated
fines mass `sec_fines_mass`, the returned `secondary_fines` ratio
`sec_fines_mass / (total output mass + 1e-9)`, and the final RNG state. -/
def run_secondary (hexp hlog hpow10 : ℚ → ℚ) (m : RNG)
    (shuf : List SecondaryBlock → List SecondaryBlock) (prim_blocks : List PrimaryBlock)
    (rock : RockMass) (sec : SecondaryRun) (defaults : Defaults)
    (mu_scatter_deg primary_fines : ℚ) (fuel : ℕ) (s : RState) :
    Option (List SecondaryBlock × ℚ × ℚ × RState) :=
  let IBS := rock.IBS.getD (compute_IBS rock.IRS rock.frac_freq rock.frac_condition)
  let IRSR := IRS_to_IRSR rock.IRS
  let RMS := compute_RMS hpow10 rock.MRMR rock.IRS (IRSR : ℚ)
  let Hc := caved_height sec.draw_height sec.swell_factor
  let P := cave_pressure_MPa rock.density Hc sec.active_draw_width sec.swell_factor
  let Fp := pressure_factor P
  let Fr := draw_rate_factor hexp sec.rate_cm_day
  let cushPct := 100 * primary_fines + sec.added_fines_pct
  match primLoop hexp hlog m rock.IRS IBS RMS Fp Fr cushPct mu_scatter_deg
      sec.draw_height fuel prim_blocks [] 0 s with
  | none => none
  | some (out, fines, s1) =>
      let out1 := shuf out
      let candidates := (List.range out1.length).filter
        (fun i => decide ((2 : ℚ) < (out1.getD i default).V))
      let n_split := pyInt (defaults.arching_pct * (candidates.length : ℚ))
      let out2 := archLoop out1 (pySlice n_split candidates)
      let total_mass := (out2.map (fun b => b.V)).sum + 1e-9
      some (out2, fines, fines / total_mass, s1)

/-! ## Hang-up estimators (src/engine/hangup.py) -/

/-- Embeds `estimate_block_width_length`; `hcbrt` models `V ** (1/3)` and
`hsqrt` models `math.sqrt`. -/
def estimate_block_width_length (hcbrt hsqrt : ℚ → ℚ) (V Omega : ℚ) : ℚ × ℚ :=
  let side := hcbrt V
  let area := side * side
  let r := 1 + max 0 ((Omega - 1) / 0.67)
  let length := hsqrt (max (1e-6) (r * area))
  let width := max (1e-6) (area / length)
  (width, length)

/-- Width/mass list construction of `orepass_hangups`, with the random
orientation swap consuming one `random()` draw per block. -/
def orepassWidths (hcbrt hsqrt : ℚ → ℚ) (m : RNG) :
    List SecondaryBlock → RState → List (ℚ × ℚ) × RState
  | [], s => ([], s)
  | b :: rest, s =>
      let wl := estimate_block_width_length hcbrt hsqrt b.V b.Omega
      let u := m.rand s.nRand
      let w := if u < 0.5 then wl.2 else wl.1
      let pr := orepassWidths hcbrt hsqrt m rest (bumpRand s)
      ((w, b.V) :: pr.1, pr.2)

/-- Inner accumulation loop of `orepass_hangups`: take blocks while the
running span stays at or below the bell width (the check precedes each
addition); returns the taken prefix, the remainder, and the final span. -/
def takeArch (W : ℚ) : List (ℚ × ℚ) → ℚ → List (ℚ × ℚ) × List (ℚ × ℚ) × ℚ
  | [], span => ([], [], span)
  | x :: xs, span =>
      if span ≤ W then
        let t := takeArch W xs (span + x.1)
        (x :: t.1, t.2.1, t.2.2)
      else ([], x :: xs, span)

/-- Outer arch-formation loop of `orepass_hangups`, with fuel (each pass
consumes at least one block for any nonnegative bell width, so the fuel
is only a formal device). -/
def orepassGo (m : RNG) (bell_width : ℚ) :
    ℕ → List (ℚ × ℚ) → ℕ → ℕ → ℚ → RState → (ℕ × ℕ × ℚ) × RState
  | 0, _, high, low, tons, s => ((high, low, tons), s)
  | Nat.succ k, items, high, low, tons, s =>
      if items.isEmpty then ((high, low, tons), s)
      else
        let t := takeArch bell_width items 0
        let taken := t.1
        let rest := t.2.1
        let span := t.2.2
        if span ≤ bell_width then ((high, low, tons), s)
        else
          let lastW := (taken.getLastD (0, 0)).1
          let arch := taken.dropLast
          let span1 := span - lastW
          if span1 ≥ 0.8 * bell_width then
            let cnt := arch.length
            let p : ℚ := if cnt < 3 then 1 else if cnt = 3 then 0.95
              else if cnt = 4 then 0.50 else if cnt = 5 then 0.05 else 0
            let u := m.rand s.nRand
            let s1 := bumpRand s
            if u < p then
              let tons1 := tons + (arch.map (fun x => x.2)).sum
              if cnt ≤ 3 then orepassGo m bell_width k rest (high + 1) low tons1 s1
              else orepassGo m bell_width k rest high (low + 1) tons1 s1
            else orepassGo m bell_width k rest high low tons s1
          else orepassGo m bell_width k rest high low tons s

/-- Embeds `orepass_hangups`; the result triple is
`(n_high, n_low, total_hangup_tons)`. -/
def orepass_hangups (hcbrt hsqrt : ℚ → ℚ) (m : RNG) (blocks : List SecondaryBlock)
    (bell_width : ℚ) (fuel : ℕ) (s : RState) : (ℕ × ℕ × ℚ) × RState :=
  let pr := orepassWidths hcbrt hsqrt m blocks s
  orepassGo m bell_width fuel pr.1 0 0 0 pr.2

/-- Batch loop of `kear_hangups`: blocks accumulate footprint areas into a
batch; every complete batch of 25 is classified and cleared. -/
def kearGo (hcbrt hsqrt : ℚ → ℚ) (m : RNG) (bell_area : ℚ) :
    List SecondaryBlock → List (ℚ × ℚ) → ℕ → ℕ → ℚ → RState →
    (ℕ × ℕ × ℚ) × List (ℚ × ℚ) × RState
  | [], batch, high, low, tons, s => ((high, low, tons), batch, s)
  | b :: rest, batch, high, low, tons, s =>
      let wl := estimate_block_width_length hcbrt hsqrt b.V b.Omega
      let u := m.rand s.nRand
      let s1 := bumpRand s
      let w := if u < 0.5 then wl.2 else wl.1
      let l := if u < 0.5 then wl.1 else wl.2
      let area := w * l
      let batch1 := batch ++ [(area, b.V)]
      if batch1.length = 25 then
        let areasum := (batch1.map (fun x => x.1)).sum
        if areasum ≥ 0.4 * bell_area then
          kearGo hcbrt hsqrt m bell_area rest [] (high + 1) low
            (tons + (batch1.map (fun x => x.2)).sum) s1
        else kearGo hcbrt hsqrt m bell_area rest [] high (low + 1) tons s1
      else kearGo hcbrt hsqrt m bell_area rest batch1 high low tons s1

/-- Embeds `kear_hangups`; the result triple is
`(n_high, n_low, total_hangup_tons)`. -/
def kear_hangups (hcbrt hsqrt : ℚ → ℚ) (m : RNG) (blocks : List SecondaryBlock)
    (bell_area : ℚ) (s : RState) : (ℕ × ℕ × ℚ) × RState :=
  let r := kearGo hcbrt hsqrt m bell_area blocks [] 0 0 0 s
  (r.1, r.2.2)

/-! ## Statistics and binning (src/engine/io_formats.py) -/

/-- Embeds `log_bins`; `hpow10` models `10 ** x`.  The source steps
`x = -2.0, -1.75, ...` through 20 quarter-decade bins. -/
def log_bins (hpow10 : ℚ → ℚ) : List (ℚ × ℚ) :=
  (List.range 20).map (fun k => (hpow10 (-2 + 0.25 * (k : ℚ)), hpow10 (-2 + 0.25 * ((k : ℚ) + 1))))

/-- Block projection consumed by `distributions_from_blocks`: the source
reads only `V` and `Omega` from its duck-typed inputs. -/
structure StatBlock where
  V : ℚ
  Omega : ℚ
deriving DecidableEq, Repr

/-- Bin scan of `distributions_from_blocks`: first bin with
`lo <= V < hi`, else index 19 for overflow and 0 otherwise. -/
def binScan (V : ℚ) : List (ℚ × ℚ) → ℕ → Option ℕ
  | [], _ => none
  | p :: rest, i => if p.1 ≤ V ∧ V < p.2 then some i else binScan V rest (i + 1)

/-- Embeds the bin-index selection including the fallback row. -/
def binIndex (bins : List (ℚ × ℚ)) (V : ℚ) : ℕ :=
  match binScan V bins 0 with
  | some i => i
  | none => if V ≥ (bins.getLastD (0, 0)).1 then 19 else 0

/-- Increment the count at an index. -/
def bumpAt (l : List ℕ) (i : ℕ) : List ℕ := l.set i (l.getD i 0 + 1)

/-- Add a mass contribution at an index. -/
def addAt (l : List ℚ) (i : ℕ) (v : ℚ) : List ℚ := l.set i (l.getD i 0 + v)

/-- Tally loop of `distributions_from_blocks`: every block contributes to
exactly one of the 20 bins. -/
def tally (bins : List (ℚ × ℚ)) : List StatBlock → List ℕ → List ℚ → List ℕ × List ℚ
  | [], fc, mc => (fc, mc)
  | b :: rest, fc, mc =>
      let i := binIndex bins b.V
      tally bins rest (bumpAt fc i) (addAt mc i b.V)

/-- Statistics record returned by `distributions_from_blocks` (the `bins`
entry is recomputable from `log_bins` and omitted). -/
structure BlockStats where
  freq_counts : List ℕ
  mass_counts : List ℚ
  cum_freq : List ℚ
  cum_mass : List ℚ
  linear_cum_mass : List ℚ
  max_volume : ℚ
  avg_volume : ℚ
  avg_omega : ℚ
deriving DecidableEq, Repr

/-- Embeds `distributions_from_blocks`.  The running cumulative loops of
the source are rendered as prefix sums over the tallied per-bin lists. -/
def distributions_from_blocks (hpow10 : ℚ → ℚ) (blocks : List StatBlock) : BlockStats :=
  let bins := log_bins hpow10
  let tl := tally bins blocks (List.replicate 20 0) (List.replicate 20 0)
  let freq_counts := tl.1
  let mass_counts := tl.2
  let total_blocks := blocks.length
  let total_mass := (blocks.map (fun b => b.V)).sum + 1e-9
  let cum_freq := (List.range 20).map
    (fun i => 100 * ((freq_counts.take (i + 1)).sum : ℚ) / (max 1 total_blocks : ℕ))
  let cum_mass := (List.range 20).map
    (fun i => 100 * (mass_counts.take (i + 1)).sum / total_mass)
  let linear_cum := (List.range 20).map
    (fun i => 100 * (mass_counts.take (i + 1)).sum / total_mass)
  ⟨freq_counts, mass_counts, cum_freq, cum_mass, linear_cum,
   ((blocks.map (fun b => b.V)).max?).getD 0,
   if blocks.isEmpty then 0 else total_mass / (max 1 total_blocks : ℕ),
   if blocks.isEmpty then 0 else (blocks.map (fun b => b.Omega)).sum / (max 1 total_blocks : ℕ)⟩

/-! ## Concrete instances used by witnesses and counterexamples -/

/-- RNG oracle whose streams are identically zero. -/
def rngZero : RNG := ⟨fun _ => 0, fun _ _ => 0, fun _ _ _ => 0, fun _ _ _ => 0, fun _ _ => 0⟩

/-- Cube-root parameter used by the C4 counterexample: exact on the two
block volumes that occur (0.6^3 and 10^3). -/
def c4cbrt : ℚ → ℚ := fun q => if q = 27 / 125 then 3 / 5 else if q = 1000 then 10 else 1

/-- Square-root parameter used by the C4 counterexample: exact on the two
footprint areas that occur. -/
def c4sqrt : ℚ → ℚ := fun q => if q = 9 / 25 then 3 / 5 else if q = 100 then 10 else 1

/-- Four equant blocks (Omega = 1) of widths 0.6, 10, 0.6, 10. -/
def c4blocks : List SecondaryBlock :=
  [⟨27 / 125, 1, 0⟩, ⟨1000, 1, 0⟩, ⟨27 / 125, 1, 0⟩, ⟨1000, 1, 0⟩]

/-- RNG oracle whose log-normal variates always exceed 11's lower
bound: used to exhibit nontermination of the uncapped rejection loop. -/
def rngHigh : RNG := ⟨fun _ => 0, fun _ _ => 0, fun _ _ _ => 0, fun _ _ _ => 11, fun _ _ => 0⟩

/-- Three deterministic-friendly joint sets with uniform spacing
distributions, used by the concrete generator runs. -/
def jsA : JointSet := ⟨"A", 45, 0, 0, 0, ⟨"uniform", 2, 5 / 2, 3, none⟩, 0⟩

/-- Second concrete joint set. -/
def jsB : JointSet := ⟨"B", 45, 0, 0, 0, ⟨"uniform", 1, 3 / 2, 2, none⟩, 0⟩

/-- Third concrete joint set. -/
def jsC : JointSet := ⟨"C", 45, 0, 0, 0, ⟨"uniform", 1 / 2, 3 / 4, 1, none⟩, 0⟩

/-- Cave face with zero stresses and auto stress fractures disabled. -/
def caveNoSF : CaveFace := ⟨45, 0, 0, 0, 0, false, 0⟩

/-- Concrete rock-mass record. -/
def rockStd : RockMass := ⟨"Granite", 65, 120, none, 17, 0, 20, 3200⟩

/-- Concrete defaults record. -/
def defaultsStd : Defaults := ⟨2, some 1234, 12 / 100, 25, 10, 20, 30, 0⟩

/-- Random stream driving the C2 counterexample run: the draws select
the three sets, sample dimensions 5/2, 3/2, 3/4, extend the largest
dimension once, and leave the other two joints uncut. -/
def rngC2 : RNG := ⟨fun i => [0, 1 / 5, 1 / 2, 1 / 2, 1 / 2, 1 / 2, 1 / 2, 1 / 2, 0, 0].getD i 0,
  fun _ _ => 0, fun _ _ _ => 0, fun _ _ _ => 0, fun _ _ => 0⟩

/-- All-zeros random stream whose `randrange` draws enumerate 0, 1, 2,
so the de-duplication padding loop terminates. -/
def rngC5 : RNG := ⟨fun _ => 0, fun _ _ => 0, fun _ _ _ => 0, fun _ _ _ => 0, fun _ i => i⟩

/-- Exponential-function parameter used by the concrete generator runs
(a constant stand-in below 1, as `exp` of the negative arguments is). -/
def expC2 : ℚ → ℚ := fun _ => 24 / 25

/-- Square-root parameter that is exact at 0, the only probed point of
the concrete runs (both runs have zero shear stress). -/
def sqrtZero : ℚ → ℚ := fun _ => 0

/-- Concrete secondary-run record with draw height 1, so every stack
entry finishes its descent within one breakage cycle. -/
def secC1 : SecondaryRun := ⟨1, 300, 6 / 5, 45, 0, 20, 8, 6⟩

/-! ## Theorems -/

/-- Claim C3, counterexample.  With `with_joints = false` the table scan
falls through for `Omega > 10.0001` and the source returns
`table6[-1][1] / 100 = 1.0 / 100 = 0.01`, not 1.0: at `Omega = 11` the
split probability is 1/100. -/
theorem c3_counterexample :
    split_prob_from_Omega 11 false = 1 / 100 ∧ ((1 : ℚ) / 100) ≠ 1 := by
  constructor
  · rw [split_prob_from_Omega]
    norm_num [table6, lookupFirstLe, List.getLastD]
  · norm_num

/-- Claim C3, amended.  With joints the table saturates: probability 1
for every `Omega ≥ 5` (including past the last threshold, where the
fallthrough returns `100 / 100`).  Without joints the probability is 1
only on `9 < Omega ≤ 10.0001`; past the last threshold the fallthrough
divides the last table entry 1.0 by 100 and returns 0.01 instead. -/
theorem c3_split_prob_saturation :
    (∀ Omega : ℚ, 5 ≤ Omega → split_prob_from_Omega Omega true = 1)
    ∧ (∀ Omega : ℚ, 9 < Omega → Omega ≤ 10.0001 → split_prob_from_Omega Omega false = 1)
    ∧ (∀ Omega : ℚ, 10.0001 < Omega → split_prob_from_Omega Omega false = 1 / 100) := by
  refine ⟨fun Omega h => ?_, fun Omega h1 h2 => ?_, fun Omega h => ?_⟩
  · rw [split_prob_from_Omega]
    simp only [table7, lookupFirstLe, List.getLastD, if_true]
    rw [if_neg (by linarith : ¬ Omega ≤ 1), if_neg (by linarith : ¬ Omega ≤ 2),
      if_neg (by linarith : ¬ Omega ≤ 3), if_neg (by linarith : ¬ Omega ≤ 4)]
    rcases le_or_lt Omega 5 with h5 | h5
    · rw [if_pos h5]; norm_num
    · rw [if_neg (by linarith : ¬ Omega ≤ 5)]
      rcases le_or_lt Omega 6 with h6 | h6
      · rw [if_pos h6]; norm_num
      · rw [if_neg (by linarith : ¬ Omega ≤ 6)]
        rcases le_or_lt Omega 7 with h7 | h7
        · rw [if_pos h7]; norm_num
        · rw [if_neg (by linarith : ¬ Omega ≤ 7)]
          rcases le_or_lt Omega 8 with h8 | h8
          · rw [if_pos h8]; norm_num
          · rw [if_neg (by linarith : ¬ Omega ≤ 8)]
            rcases le_or_lt Omega 9 with h9 | h9
            · rw [if_pos h9]; norm_num
            · rw [if_neg (by linarith : ¬ Omega ≤ 9)]
              rcases le_or_lt Omega 10.0001 with h10 | h10
              · rw [if_pos h10]; norm_num
              · rw [if_neg (by linarith : ¬ Omega ≤ 10.0001)]
                norm_num
  · rw [split_prob_from_Omega]
    simp only [table6, lookupFirstLe, List.getLastD]
    rw [if_neg (by linarith : ¬ Omega ≤ 0.999), if_neg (by linarith : ¬ Omega ≤ 2),
      if_neg (by linarith : ¬ Omega ≤ 3), if_neg (by linarith : ¬ Omega ≤ 4),
      if_neg (by linarith : ¬ Omega ≤ 5), if_neg (by linarith : ¬ Omega ≤ 6),
      if_neg (by linarith : ¬ Omega ≤ 7), if_neg (by linarith : ¬ Omega ≤ 8),
      if_neg (by linarith : ¬ Omega ≤ 9), if_pos (by linarith : Omega ≤ 10.0001)]
    norm_num
  · rw [split_prob_from_Omega]
    simp only [table6, lookupFirstLe, List.getLastD]
    rw [if_neg (by linarith : ¬ Omega ≤ 0.999), if_neg (by linarith : ¬ Omega ≤ 2),
      if_neg (by linarith : ¬ Omega ≤ 3), if_neg (by linarith : ¬ Omega ≤ 4),
      if_neg (by linarith : ¬ Omega ≤ 5), if_neg (by linarith : ¬ Omega ≤ 6),
      if_neg (by linarith : ¬ Omega ≤ 7), if_neg (by linarith : ¬ Omega ≤ 8),
      if_neg (by linarith : ¬ Omega ≤ 9), if_neg (by linarith : ¬ Omega ≤ 10.0001)]
    norm_num

/-- Witness for `c3_split_prob_saturation` at `Omega = 5, 10, 11`. -/
theorem c3_split_prob_saturation_witness :
    split_prob_from_Omega 5 true = 1 ∧ split_prob_from_Omega 10 false = 1 ∧
    split_prob_from_Omega 11 false = 1 / 100 :=
  ⟨c3_split_prob_saturation.1 5 (by norm_num),
   c3_split_prob_saturation.2.1 10 (by norm_num) (by norm_num),
   c3_split_prob_saturation.2.2 11 (by norm_num)⟩

/-- Helper: the high-risk count of the Kear batch loop is antitone in the
bell area, with all other state fixed and the running counts related. -/
theorem kearGo_high_mono (hcbrt hsqrt : ℚ → ℚ) (m : RNG) (A1 A2 : ℚ) (hA : A1 ≤ A2) :
    ∀ (bs : List SecondaryBlock) (batch : List (ℚ × ℚ)) (h1 h2 l1 l2 : ℕ) (t1 t2 : ℚ)
      (s : RState), h2 ≤ h1 →
      (kearGo hcbrt hsqrt m A2 bs batch h2 l2 t2 s).1.1 ≤
        (kearGo hcbrt hsqrt m A1 bs batch h1 l1 t1 s).1.1 := by
  intro bs
  induction bs with
  | nil => intro batch h1 h2 l1 l2 t1 t2 s hh; simpa [kearGo] using hh
  | cons b rest ih =>
      intro batch h1 h2 l1 l2 t1 t2 s hh
      simp only [kearGo]
      split_ifs <;>
        first
          | exact ih _ _ _ _ _ _ _ _ (by omega)
          | (exfalso; linarith)

/-- Claim C4, counterexample for the width-based estimator.  With block
geometry and random stream held fixed, raising the drawbell width from 1
to 12 raises `n_high` from 0 to 1: at width 1 every greedy arch (one
small block, then a 10-wide overflow block) spans under 80% of the bell
width, while at width 12 the first three blocks form an arch of span
11.2 ≥ 9.6 that is then classified high-risk. -/
theorem c4_counterexample :
    (1 : ℚ) ≤ 12 ∧
    (orepass_hangups c4cbrt c4sqrt rngZero c4blocks 1 10 RState.init).1.1 = 0 ∧
    (orepass_hangups c4cbrt c4sqrt rngZero c4blocks 12 10 RState.init).1.1 = 1 := by
  refine ⟨by norm_num, ?_, ?_⟩ <;>
    · rw [orepass_hangups]
      norm_num [orepassWidths, estimate_block_width_length, c4cbrt, c4sqrt, c4blocks,
        rngZero, RState.init, bumpRand]
      repeat (first
        | rfl
        | (rw [orepassGo]; norm_num [takeArch, rngZero, bumpRand, List.getLastD]))

/-- Claim C4, amended.  The area-based estimator `kear_hangups` is
monotone as claimed: with the block list, the random stream, and hence
the block geometry fixed, increasing the drawbell area never increases
`n_high`.  The width-based estimator violates the analogous property
(see the counterexample), because widening the bell lets previously
too-short arches reach the 80%-of-width threshold. -/
theorem c4_kear_high_monotone (hcbrt hsqrt : ℚ → ℚ) (m : RNG) (blocks : List SecondaryBlock)
    (s : RState) (A1 A2 : ℚ) (hA : A1 ≤ A2) :
    (kear_hangups hcbrt hsqrt m blocks A2 s).1.1 ≤
      (kear_hangups hcbrt hsqrt m blocks A1 s).1.1 := by
  simp only [kear_hangups]
  exact kearGo_high_mono hcbrt hsqrt m A1 A2 hA blocks [] 0 0 0 0 0 0 s (le_refl 0)

/-- Witness for `c4_kear_high_monotone` on a concrete configuration. -/
theorem c4_kear_high_monotone_witness :
    (kear_hangups c4cbrt c4sqrt rngZero c4blocks 20 RState.init).1.1 ≤
      (kear_hangups c4cbrt c4sqrt rngZero c4blocks 10 RState.init).1.1 :=
  c4_kear_high_monotone c4cbrt c4sqrt rngZero c4blocks RState.init 10 20 (by norm_num)

/-- Helper: the Kear batch loop distributes over list append. -/
theorem kearGo_append (hcbrt hsqrt : ℚ → ℚ) (m : RNG) (A : ℚ) :
    ∀ (xs ys : List SecondaryBlock) (batch : List (ℚ × ℚ)) (h l : ℕ) (t : ℚ) (s : RState),
      kearGo hcbrt hsqrt m A (xs ++ ys) batch h l t s =
        kearGo hcbrt hsqrt m A ys (kearGo hcbrt hsqrt m A xs batch h l t s).2.1
          (kearGo hcbrt hsqrt m A xs batch h l t s).1.1
          (kearGo hcbrt hsqrt m A xs batch h l t s).1.2.1
          (kearGo hcbrt hsqrt m A xs batch h l t s).1.2.2
          (kearGo hcbrt hsqrt m A xs batch h l t s).2.2 := by
  intro xs
  induction xs with
  | nil => intro ys batch h l t s; rfl
  | cons b rest ih =>
      intro ys batch h l t s
      simp only [List.cons_append, kearGo]
      split_ifs <;> exact ih _ _ _ _ _ _

/-- Helper: fewer remaining blocks than a batch can hold never changes
the counts, since the batch of 25 can never complete. -/
theorem kearGo_counts_short (hcbrt hsqrt : ℚ → ℚ) (m : RNG) (A : ℚ) :
    ∀ (xs : List SecondaryBlock) (batch : List (ℚ × ℚ)) (h l : ℕ) (t : ℚ) (s : RState),
      xs.length + batch.length < 25 →
      (kearGo hcbrt hsqrt m A xs batch h l t s).1 = (h, l, t) := by
  intro xs
  induction xs with
  | nil => intro batch h l t s hlen; rfl
  | cons b rest ih =>
      intro batch h l t s hlen
      simp only [kearGo]
      split_ifs <;>
        first
          | exact ih _ _ _ _ _ (by
              simp only [List.length_append, List.length_cons, List.length_nil] at *
              omega)
          | (exfalso
             simp only [List.length_append, List.length_cons, List.length_nil] at *
             omega)

/-- Helper: the pending Kear batch always stays below 25 entries. -/
theorem kearGo_batch_lt (hcbrt hsqrt : ℚ → ℚ) (m : RNG) (A : ℚ) :
    ∀ (xs : List SecondaryBlock) (batch : List (ℚ × ℚ)) (h l : ℕ) (t : ℚ) (s : RState),
      batch.length < 25 →
      (kearGo hcbrt hsqrt m A xs batch h l t s).2.1.length < 25 := by
  intro xs
  induction xs with
  | nil => intro batch h l t s hlen; exact hlen
  | cons b rest ih =>
      intro batch h l t s hlen
      simp only [kearGo]
      split_ifs <;>
        exact ih _ _ _ _ _ (by
          (try simp only [List.length_append, List.length_cons, List.length_nil] at *)
          omega)

/-- Helper: the final pending-batch size is congruent modulo 25 to the
initial batch size plus the number of processed blocks. -/
theorem kearGo_batch_mod (hcbrt hsqrt : ℚ → ℚ) (m : RNG) (A : ℚ) :
    ∀ (xs : List SecondaryBlock) (batch : List (ℚ × ℚ)) (h l : ℕ) (t : ℚ) (s : RState),
      batch.length < 25 →
      (kearGo hcbrt hsqrt m A xs batch h l t s).2.1.length % 25 =
        (batch.length + xs.length) % 25 := by
  intro xs
  induction xs with
  | nil => intro batch h l t s hlen; simp [kearGo]
  | cons b rest ih =>
      intro batch h l t s hlen
      simp only [kearGo]
      split_ifs <;>
        (rw [ih _ _ _ _ _ (by
            (try simp only [List.length_append, List.length_cons, List.length_nil] at *)
            omega)]
         simp only [List.length_append, List.length_cons, List.length_nil] at *
         omega)

/-- Claim C10.  The Kear estimator classifies only complete batches of
25: its counts and mass on any block list equal those on the list
truncated to the largest multiple of 25, and in particular any list of
fewer than 25 blocks yields `n_high = n_low = 0` and zero hang-up mass,
for every bell area and random stream. -/
theorem c10_kear_discards_partial_batches (hcbrt hsqrt : ℚ → ℚ) (m : RNG)
    (blocks : List SecondaryBlock) (bell_area : ℚ) (s : RState) :
    (kear_hangups hcbrt hsqrt m blocks bell_area s).1 =
      (kear_hangups hcbrt hsqrt m (blocks.take (25 * (blocks.length / 25))) bell_area s).1
    ∧ (blocks.length < 25 →
        (kear_hangups hcbrt hsqrt m blocks bell_area s).1 = (0, 0, 0)) := by
  constructor
  · have hsplit : blocks.take (25 * (blocks.length / 25)) ++
        blocks.drop (25 * (blocks.length / 25)) = blocks := List.take_append_drop _ _
    have htl : (blocks.take (25 * (blocks.length / 25))).length = 25 * (blocks.length / 25) := by
      rw [List.length_take]
      have h25 := Nat.div_add_mod blocks.length 25
      have hm := Nat.mod_lt blocks.length (show 0 < 25 by norm_num)
      omega
    have hlt := kearGo_batch_lt hcbrt hsqrt m bell_area
      (blocks.take (25 * (blocks.length / 25))) [] 0 0 0 s (by norm_num)
    have hmod := kearGo_batch_mod hcbrt hsqrt m bell_area
      (blocks.take (25 * (blocks.length / 25))) [] 0 0 0 s (by norm_num)
    rw [htl] at hmod
    have hdl : (blocks.drop (25 * (blocks.length / 25))).length =
        blocks.length - 25 * (blocks.length / 25) := List.length_drop _ _
    have hb0 : (kearGo hcbrt hsqrt m bell_area (blocks.take (25 * (blocks.length / 25)))
        [] 0 0 0 s).2.1.length = 0 := by
      simp only [List.length_nil] at hmod
      omega
    conv_lhs => rw [← hsplit]
    simp only [kear_hangups]
    rw [kearGo_append]
    rw [kearGo_counts_short hcbrt hsqrt m bell_area _ _ _ _ _ _ (by
      rw [hb0, hdl]
      have h25 := Nat.div_add_mod blocks.length 25
      have hm := Nat.mod_lt blocks.length (show 0 < 25 by norm_num)
      omega)]
  · intro h25
    simp only [kear_hangups]
    exact kearGo_counts_short hcbrt hsqrt m bell_area blocks [] 0 0 0 s
      (by simpa using h25)

/-- Witness for `c10_kear_discards_partial_batches`: a single block is a
partial batch and produces zero counts and mass. -/
theorem c10_kear_discards_partial_batches_witness :
    (kear_hangups (fun _ => 1) (fun _ => 1) rngZero [⟨1, 1, 0⟩] 10 RState.init).1 =
      (0, 0, 0) :=
  (c10_kear_discards_partial_batches (fun _ => 1) (fun _ => 1) rngZero [⟨1, 1, 0⟩] 10
    RState.init).2 (by norm_num)

/-- Helper: the bin scan returns an index below the start offset plus the
number of scanned bins. -/
theorem binScan_lt (V : ℚ) :
    ∀ (l : List (ℚ × ℚ)) (i j : ℕ), binScan V l i = some j → j < i + l.length := by
  intro l
  induction l with
  | nil => intro i j h; simp [binScan] at h
  | cons p rest ih =>
      intro i j h
      simp only [binScan] at h
      split_ifs at h with hc
      · simp only [Option.some.injEq] at h
        simp only [List.length_cons]
        omega
      · have := ih (i + 1) j h
        simp only [List.length_cons]
        omega

/-- Helper: with 20 bins every block is assigned a bin index below 20,
the fallback rows included. -/
theorem binIndex_lt (bins : List (ℚ × ℚ)) (V : ℚ) (hlen : bins.length = 20) :
    binIndex bins V < 20 := by
  rw [binIndex]
  cases hscan : binScan V bins 0 with
  | none => split_ifs <;> norm_num
  | some j =>
      have hj := binScan_lt V bins 0 j hscan
      rw [hlen] at hj
      show j < 20
      omega

/-- Helper: incrementing a count at a valid index adds one to the sum. -/
theorem sum_bumpAt : ∀ (l : List ℕ) (i : ℕ), i < l.length → (bumpAt l i).sum = l.sum + 1 := by
  intro l
  induction l with
  | nil => intro i h; simp at h
  | cons x xs ih =>
      intro i h
      cases i with
      | zero => simp [bumpAt, List.getD]; omega
      | succ k =>
          have hk : k < xs.length := by simpa using h
          have := ih k hk
          simp only [bumpAt, List.set, List.getD, List.get?, List.sum_cons] at this ⊢
          omega

/-- Helper: adding a mass at a valid index adds it to the sum. -/
theorem sum_addAt : ∀ (l : List ℚ) (i : ℕ) (v : ℚ), i < l.length →
    (addAt l i v).sum = l.sum + v := by
  intro l
  induction l with
  | nil => intro i v h; simp at h
  | cons x xs ih =>
      intro i v h
      cases i with
      | zero => simp [addAt, List.getD]; ring
      | succ k =>
          have hk : k < xs.length := by simpa using h
          have := ih k v hk
          simp only [addAt, List.set, List.getD, List.get?, List.sum_cons] at this ⊢
          linarith

/-- Helper: the tally keeps both per-bin lists at their input lengths. -/
theorem tally_lengths (bins : List (ℚ × ℚ)) :
    ∀ (bs : List StatBlock) (fc : List ℕ) (mc : List ℚ),
      (tally bins bs fc mc).1.length = fc.length ∧
        (tally bins bs fc mc).2.length = mc.length := by
  intro bs
  induction bs with
  | nil => intro fc mc; exact ⟨rfl, rfl⟩
  | cons b rest ih =>
      intro fc mc
      simp only [tally]
      refine ⟨((ih _ _).1).trans ?_, ((ih _ _).2).trans ?_⟩
      · simp [bumpAt]
      · simp [addAt]

/-- Helper: each block adds one to the total frequency count. -/
theorem tally_freq_sum (bins : List (ℚ × ℚ)) (hb : bins.length = 20) :
    ∀ (bs : List StatBlock) (fc : List ℕ) (mc : List ℚ), fc.length = 20 →
      (tally bins bs fc mc).1.sum = fc.sum + bs.length := by
  intro bs
  induction bs with
  | nil => intro fc mc hf; simp [tally]
  | cons b rest ih =>
      intro fc mc hf
      simp only [tally]
      rw [ih _ _ (by simp [bumpAt, hf])]
      rw [sum_bumpAt fc _ (by rw [hf]; exact binIndex_lt bins b.V hb)]
      simp only [List.length_cons]
      omega

/-- Helper: each block adds its volume to the total binned mass. -/
theorem tally_mass_sum (bins : List (ℚ × ℚ)) (hb : bins.length = 20) :
    ∀ (bs : List StatBlock) (fc : List ℕ) (mc : List ℚ), mc.length = 20 →
      (tally bins bs fc mc).2.sum = mc.sum + (bs.map (fun b => b.V)).sum := by
  intro bs
  induction bs with
  | nil => intro fc mc hm; simp [tally]
  | cons b rest ih =>
      intro fc mc hm
      simp only [tally]
      rw [ih _ _ (by simp [addAt, hm])]
      rw [sum_addAt mc _ _ (by rw [hm]; exact binIndex_lt bins b.V hb)]
      simp only [List.map_cons, List.sum_cons]
      ring

/-- Helper: the 20th element of a 20-entry generated list. -/
theorem rangeMapGetD19 (f : ℕ → ℚ) : ((List.range 20).map f).getD 19 0 = f 19 := rfl

/-- Claim C7.  Every block lands in exactly one of the 20 bins, so the
per-bin counts sum to the collection size; the final cumulative-mass
entry equals `100·S/(S + 1e-9)` for total mass `S` (the denominator
epsilon of the source), which is within `1e-4` percent of 100 whenever
the total mass is at least `1e-3`. -/
theorem c7_binning_totals (hpow10 : ℚ → ℚ) (blocks : List StatBlock) (hne : blocks ≠ []) :
    (distributions_from_blocks hpow10 blocks).freq_counts.sum = blocks.length
    ∧ (distributions_from_blocks hpow10 blocks).cum_mass.getD 19 0 =
        100 * (blocks.map (fun b => b.V)).sum / ((blocks.map (fun b => b.V)).sum + 1e-9)
    ∧ (1e-3 ≤ (blocks.map (fun b => b.V)).sum →
        |(distributions_from_blocks hpow10 blocks).cum_mass.getD 19 0 - 100| ≤ 1e-4) := by
  have hbins : (log_bins hpow10).length = 20 := rfl
  have hmlen : (tally (log_bins hpow10) blocks (List.replicate 20 0)
      (List.replicate 20 0)).2.length = 20 := by
    rw [(tally_lengths _ blocks _ _).2]; simp
  have hcum : (distributions_from_blocks hpow10 blocks).cum_mass.getD 19 0 =
      100 * (blocks.map (fun b => b.V)).sum / ((blocks.map (fun b => b.V)).sum + 1e-9) := by
    show ((List.range 20).map fun i => 100 * ((tally (log_bins hpow10) blocks
        (List.replicate 20 0) (List.replicate 20 0)).2.take (i + 1)).sum /
        ((blocks.map (fun b => b.V)).sum + 1e-9)).getD 19 0 = _
    rw [rangeMapGetD19]
    rw [show (19 + 1 : ℕ) = 20 from rfl]
    rw [List.take_of_length_le (le_of_eq hmlen)]
    rw [tally_mass_sum _ hbins blocks _ _ (by simp)]
    simp
  refine ⟨?_, hcum, fun hS => ?_⟩
  · show (tally (log_bins hpow10) blocks (List.replicate 20 0)
        (List.replicate 20 0)).1.sum = blocks.length
    rw [tally_freq_sum _ hbins blocks _ _ (by simp)]
    simp
  · rw [hcum]
    have he : (0 : ℚ) < (blocks.map (fun b => b.V)).sum + 1e-9 := by
      have : (0 : ℚ) < 1e-3 := by norm_num
      have h9 : (0 : ℚ) < 1e-9 := by norm_num
      linarith
    have heq : 100 * (blocks.map (fun b => b.V)).sum /
        ((blocks.map (fun b => b.V)).sum + 1e-9) - 100 =
        -(100 * 1e-9 / ((blocks.map (fun b => b.V)).sum + 1e-9)) := by
      field_simp
      ring
    rw [heq, abs_neg, abs_of_nonneg (div_nonneg (by norm_num) he.le)]
    rw [div_le_iff₀ he]
    nlinarith

/-- Witness for `c7_binning_totals` on a one-block collection. -/
theorem c7_binning_totals_witness :
    (distributions_from_blocks (fun _ => 1) [⟨1, 1⟩]).freq_counts.sum = 1 ∧
    |(distributions_from_blocks (fun _ => 1) [⟨1, 1⟩]).cum_mass.getD 19 0 - 100| ≤ 1e-4 := by
  have h := c7_binning_totals (fun _ => 1) [⟨1, 1⟩] (by simp)
  exact ⟨h.1, h.2.2 (by norm_num)⟩

/-- Helper: a uniform draw `lo + u * (hi - lo)` with `u` in `[0, 1)`
stays in `[lo, hi]`. -/
theorem uniformVal_mem (lo hi u : ℚ) (h : lo < hi) (hu0 : 0 ≤ u) (hu1 : u < 1) :
    lo ≤ lo + u * (hi - lo) ∧ lo + u * (hi - lo) ≤ hi :=
  ⟨by nlinarith, by nlinarith⟩

/-- Helper: every exit of the truncated-exponential rejection loop is in
`[lo, hi]` when the exponential draws are nonnegative and the uniform
draws are in `[0, 1)`. -/
theorem truncExpGo_mem (m : RNG) (lam lo hi : ℚ) (hlohi : lo < hi)
    (hrand : ∀ i, 0 ≤ m.rand i ∧ m.rand i < 1) (hexpo : ∀ la i, 0 ≤ m.expo la i) :
    ∀ (k : ℕ) (s : RState),
      lo ≤ (truncExpGo m lam lo hi k s).1 ∧ (truncExpGo m lam lo hi k s).1 ≤ hi := by
  intro k
  induction k with
  | zero =>
      intro s
      exact uniformVal_mem lo hi (m.rand s.nRand) hlohi (hrand s.nRand).1 (hrand s.nRand).2
  | succ n ih =>
      intro s
      simp only [truncExpGo]
      split_ifs with hacc
      · constructor
        · show lo ≤ lo + m.expo lam s.nExpo
          have := hexpo lam s.nExpo
          linarith
        · exact hacc
      · exact ih (bumpExpo s)

/-- Helper: `sample_truncated_exponential` stays in `[lo, hi]`. -/
theorem sample_truncated_exponential_mem (m : RNG) (mean lo hi : ℚ) (s : RState)
    (hlohi : lo < hi) (hrand : ∀ i, 0 ≤ m.rand i ∧ m.rand i < 1)
    (hexpo : ∀ la i, 0 ≤ m.expo la i) :
    lo ≤ (sample_truncated_exponential m mean lo hi s).1 ∧
      (sample_truncated_exponential m mean lo hi s).1 ≤ hi := by
  rw [sample_truncated_exponential, if_neg (not_le.mpr hlohi)]
  exact truncExpGo_mem m _ lo hi hlohi hrand hexpo 10000 s

/-- Helper: any value returned by the log-normal rejection loop is at
most the cap. -/
theorem lognormGo_le (m : RNG) (mu sigma maxObs : ℚ) :
    ∀ (k : ℕ) (s : RState) (v : ℚ) (s2 : RState),
      lognormGo m mu sigma maxObs k s = some (v, s2) → v ≤ maxObs := by
  intro k
  induction k with
  | zero => intro s v s2 h; simp [lognormGo] at h
  | succ n ih =>
      intro s v s2 h
      simp only [lognormGo] at h
      split_ifs at h with hc
      · simp only [Option.some.injEq, Prod.mk.injEq] at h
        rw [← h.1]
        exact hc
      · exact ih _ _ _ h

/-- Claim C6.  For a valid spacing record (min < mean < max) and any
random stream whose `random()` values lie in `[0, 1)` and whose
`expovariate` values are nonnegative, `sample_spacing` returns a value
in `[min, max]` for the `trunc_exp`, `normal` and `uniform` families,
and a value at most the cap (`max_obs`, defaulting to `3 * max`) for the
`lognormal` family whenever its rejection loop returns. -/
theorem c6_sample_spacing_bounds (hlog : ℚ → ℚ) (m : RNG) (dist : SpacingDist) (fuel : ℕ)
    (s : RState) (hvalid : dist.min < dist.mean ∧ dist.mean < dist.max_or_90pct)
    (hrand : ∀ i, 0 ≤ m.rand i ∧ m.rand i < 1)
    (hexpo : ∀ la i, 0 ≤ m.expo la i) :
    ((dist.type = "trunc_exp" ∨ dist.type = "normal" ∨ dist.type = "uniform") →
      ∀ v s2, sample_spacing hlog m dist fuel s = some (v, s2) →
        dist.min ≤ v ∧ v ≤ dist.max_or_90pct)
    ∧ (dist.type = "lognormal" →
      ∀ v s2, sample_spacing hlog m dist fuel s = some (v, s2) →
        v ≤ dist.max_obs.getD (dist.max_or_90pct * 3)) := by
  obtain ⟨h1, h2⟩ := hvalid
  have hlohi : dist.min < dist.max_or_90pct := h1.trans h2
  have hcond : dist.min < dist.mean ∧ dist.mean < dist.max_or_90pct := ⟨h1, h2⟩
  constructor
  · rintro (ht | ht | ht) v s2 hv <;>
      rw [sample_spacing] at hv <;>
      rw [if_neg (not_le.mpr hlohi)] at hv <;>
      rw [if_pos hcond] at hv <;>
      simp only [ht] at hv
    · rw [if_pos trivial] at hv
      simp only [Option.some.injEq] at hv
      have hb := sample_truncated_exponential_mem m dist.mean dist.min dist.max_or_90pct s
        hlohi hrand hexpo
      rw [hv] at hb
      exact hb
    · rw [if_pos trivial] at hv
      injection hv with hv
      have hb : dist.min ≤ (sample_normal_range m dist.min dist.mean dist.max_or_90pct s).1 ∧
          (sample_normal_range m dist.min dist.mean dist.max_or_90pct s).1 ≤
            dist.max_or_90pct :=
        ⟨le_max_left _ _, max_le hlohi.le (min_le_left _ _)⟩
      rw [hv] at hb
      exact hb
    · rw [if_pos trivial] at hv
      injection hv with hv
      have hb : dist.min ≤ (sample_uniform m dist.min dist.max_or_90pct s).1 ∧
          (sample_uniform m dist.min dist.max_or_90pct s).1 ≤ dist.max_or_90pct :=
        uniformVal_mem _ _ _ hlohi (hrand s.nRand).1 (hrand s.nRand).2
      rw [hv] at hb
      exact hb
  · intro ht v s2 hv
    rw [sample_spacing] at hv
    rw [if_neg (not_le.mpr hlohi)] at hv
    rw [if_pos hcond] at hv
    simp only [ht] at hv
    rw [if_pos trivial] at hv
    rw [sample_lognormal_capped] at hv
    exact lognormGo_le m _ _ _ fuel s v s2 hv

/-- Witness for `c6_sample_spacing_bounds`: a uniform draw from the
all-zeros stream on the record (min 0, mean 1/2, max 1) returns 0,
inside `[0, 1]`. -/
theorem c6_sample_spacing_bounds_witness : (0 : ℚ) ≤ 0 ∧ (0 : ℚ) ≤ 1 := by
  have h := (c6_sample_spacing_bounds (fun _ => 0) rngZero ⟨"uniform", 0, 1 / 2, 1, none⟩ 5
      RState.init (by constructor <;> norm_num) (fun i => by constructor <;> norm_num [rngZero])
      (fun la i => by norm_num [rngZero])).1
    (Or.inr (Or.inr rfl)) 0 (bumpRand RState.init) ?_
  · exact h
  · rw [sample_spacing]
    norm_num [sample_uniform, rngZero]
    rw [if_neg (by decide : ¬ ("uniform" : String) = "trunc_exp"),
      if_neg (by decide : ¬ ("uniform" : String) = "normal")]

/-- Helper: full characterization of the truncated-exponential rejection
loop.  Either some attempt `j` below the bound is the first accepted one
and its value is returned, or every attempt is rejected and the uniform
fallback value is returned. -/
theorem truncExpGo_spec (m : RNG) (lam lo hi : ℚ) :
    ∀ (k : ℕ) (s : RState),
      (∃ j, j < k ∧ (∀ i, i < j → hi < lo + m.expo lam (s.nExpo + i)) ∧
        lo + m.expo lam (s.nExpo + j) ≤ hi ∧
        (truncExpGo m lam lo hi k s).1 = lo + m.expo lam (s.nExpo + j))
      ∨ ((∀ j, j < k → hi < lo + m.expo lam (s.nExpo + j)) ∧
        (truncExpGo m lam lo hi k s).1 = lo + m.rand s.nRand * (hi - lo)) := by
  intro k
  induction k with
  | zero =>
      intro s
      right
      exact ⟨fun j hj => absurd hj (Nat.not_lt_zero j), rfl⟩
  | succ n ih =>
      intro s
      have hstep : truncExpGo m lam lo hi (n + 1) s =
          if lo + m.expo lam s.nExpo ≤ hi then (lo + m.expo lam s.nExpo, bumpExpo s)
          else truncExpGo m lam lo hi n (bumpExpo s) := rfl
      have hnb : (bumpExpo s).nExpo = s.nExpo + 1 := rfl
      have hnr : (bumpExpo s).nRand = s.nRand := rfl
      by_cases hacc : lo + m.expo lam s.nExpo ≤ hi
      · left
        refine ⟨0, by omega, fun i hi0 => absurd hi0 (Nat.not_lt_zero i),
          by simpa using hacc, ?_⟩
        rw [hstep, if_pos hacc]
        simp
      · rcases ih (bumpExpo s) with ⟨j, hj, hrej, hacc2, hval⟩ | ⟨hrej, hval⟩
        · left
          refine ⟨j + 1, by omega, ?_, ?_, ?_⟩
          · intro i hij
            cases i with
            | zero => simpa using not_le.mp hacc
            | succ i2 =>
                have h3 := hrej i2 (by omega)
                rw [hnb] at h3
                have he : s.nExpo + 1 + i2 = s.nExpo + (i2 + 1) := by omega
                rwa [he] at h3
          · rw [hnb] at hacc2
            have he : s.nExpo + 1 + j = s.nExpo + (j + 1) := by omega
            rwa [he] at hacc2
          · rw [hstep, if_neg hacc, hval, hnb]
            have he : s.nExpo + 1 + j = s.nExpo + (j + 1) := by omega
            rw [he]
        · right
          refine ⟨?_, ?_⟩
          · intro j hj
            cases j with
            | zero => simpa using not_le.mp hacc
            | succ j2 =>
                have h3 := hrej j2 (by omega)
                rw [hnb] at h3
                have he : s.nExpo + 1 + j2 = s.nExpo + (j2 + 1) := by omega
                rwa [he] at h3
          · rw [hstep, if_neg hacc, hval, hnr]

/-- Helper: on a stream whose log-normal variates all exceed the cap,
the rejection loop never returns, for any amount of fuel. -/
theorem lognormGo_none (m : RNG) (mu sigma maxObs : ℚ)
    (hstream : ∀ mu2 sig2 i, maxObs < m.lognorm mu2 sig2 i) :
    ∀ (fuel : ℕ) (s : RState), lognormGo m mu sigma maxObs fuel s = none := by
  intro fuel
  induction fuel with
  | zero => intro s; rfl
  | succ n ih =>
      intro s
      simp only [lognormGo]
      rw [if_neg (not_le.mpr (hstream mu sigma s.nLognorm))]
      exact ih (bumpLognorm s)

/-- Claim C9.  The truncated-exponential sampler is total: for every
stream it either accepts some draw within the first 10000 attempts
(returning `lo` plus that exponential variate) or rejects all 10000 and
returns the uniform fallback `lo + random() * (hi - lo)`.  The
log-normal sampler's loop has no cap: on any stream whose variates all
exceed `max_obs` it never returns, whatever fuel it is given. -/
theorem c9_sampler_termination :
    (∀ (m : RNG) (mean lo hi : ℚ) (s : RState), lo < hi →
      (∃ j, j < 10000 ∧
        (∀ i, i < j →
          hi < lo + m.expo (max 1e-6 (1 / max 1e-6 (mean - 0.2 * lo))) (s.nExpo + i)) ∧
        lo + m.expo (max 1e-6 (1 / max 1e-6 (mean - 0.2 * lo))) (s.nExpo + j) ≤ hi ∧
        (sample_truncated_exponential m mean lo hi s).1 =
          lo + m.expo (max 1e-6 (1 / max 1e-6 (mean - 0.2 * lo))) (s.nExpo + j))
      ∨ ((∀ j, j < 10000 →
          hi < lo + m.expo (max 1e-6 (1 / max 1e-6 (mean - 0.2 * lo))) (s.nExpo + j)) ∧
        (sample_truncated_exponential m mean lo hi s).1 = lo + m.rand s.nRand * (hi - lo)))
    ∧ (∀ (hlog : ℚ → ℚ) (m : RNG) (p10 p90 maxObs : ℚ) (fuel : ℕ) (s : RState),
        (∀ mu sigma i, maxObs < m.lognorm mu sigma i) →
        sample_lognormal_capped hlog m p10 p90 maxObs fuel s = none) := by
  constructor
  · intro m mean lo hi s h
    rw [sample_truncated_exponential, if_neg (not_le.mpr h)]
    exact truncExpGo_spec m _ lo hi 10000 s
  · intro hlog m p10 p90 maxObs fuel s hstream
    rw [sample_lognormal_capped]
    exact lognormGo_none m _ _ maxObs hstream fuel s

/-- Witness for `c9_sampler_termination`: the all-zeros stream accepts
the first exponential draw, and a stream of log-normal variates all
equal to 11 never leaves the loop with cap 10. -/
theorem c9_sampler_termination_witness :
    ((∃ j, j < 10000 ∧
        (∀ i, i < j →
          (2 : ℚ) < 0 + rngZero.expo (max 1e-6 (1 / max 1e-6 (1 - 0.2 * 0)))
            (RState.init.nExpo + i)) ∧
        (0 : ℚ) + rngZero.expo (max 1e-6 (1 / max 1e-6 (1 - 0.2 * 0)))
          (RState.init.nExpo + j) ≤ 2 ∧
        (sample_truncated_exponential rngZero 1 0 2 RState.init).1 =
          0 + rngZero.expo (max 1e-6 (1 / max 1e-6 (1 - 0.2 * 0))) (RState.init.nExpo + j))
      ∨ ((∀ j, j < 10000 →
          (2 : ℚ) < 0 + rngZero.expo (max 1e-6 (1 / max 1e-6 (1 - 0.2 * 0)))
            (RState.init.nExpo + j)) ∧
        (sample_truncated_exponential rngZero 1 0 2 RState.init).1 =
          0 + rngZero.rand RState.init.nRand * (2 - 0)))
    ∧ sample_lognormal_capped (fun _ => 0) rngHigh 0 0 10 5 RState.init = none :=
  ⟨c9_sampler_termination.1 rngZero 1 0 2 RState.init (by norm_num),
   c9_sampler_termination.2 (fun _ => 0) rngHigh 0 0 10 5 RState.init
     (fun mu sigma i => by norm_num [rngHigh])⟩

/-- Helper: the per-block generation loop never produces the
configuration error; that error arises only from the up-front joint-set
count check. -/
theorem genLoop_ne_configError (hexp hlog : ℚ → ℚ) (tan30 : ℚ) (hsqrt : ℚ → ℚ) (m : RNG)
    (cave : CaveFace) (all_sets : List JointSet) (fuel : ℕ) :
    ∀ (n : ℕ) (acc : List PrimaryBlock) (s : RState),
      genLoop hexp hlog tan30 hsqrt m cave all_sets fuel n acc s ≠ GenResult.configError := by
  intro n
  induction n with
  | zero => intro acc s h; exact GenResult.noConfusion h
  | succ k ih =>
      intro acc s h
      simp only [genLoop] at h
      rcases hg : genOneBlock hexp hlog tan30 hsqrt m cave all_sets fuel s with _ | ⟨b, s1⟩
      · rw [hg] at h
        exact GenResult.noConfusion h
      · rw [hg] at h
        exact ih _ _ h

/-- Claim C8.  `generate_primary_blocks` reports the configuration error
exactly when fewer than 3 usable joint sets are available, counting the
optionally auto-derived stress-fracture set.  The criterion does not
mention the random oracle at all: the check precedes every sampling
call (the stress-fracture derivation itself never draws), so the error
is decided before any random spacing sampling is performed. -/
theorem c8_config_error_iff (hexp hlog : ℚ → ℚ) (tan30 : ℚ) (hsqrt : ℚ → ℚ) (m : RNG)
    (n_blocks : ℕ) (rock : RockMass) (joints : List JointSet) (cave : CaveFace)
    (defaults : Defaults) (fuel : ℕ) (s : RState) :
    generate_primary_blocks hexp hlog tan30 hsqrt m n_blocks rock joints cave defaults fuel s
        = GenResult.configError
      ↔ (joints ++ (if cave.allow_stress_fractures then
          maybe_add_stress_fracture_set rock cave else [])).length < 3 := by
  rw [generate_primary_blocks]
  split_ifs <;> rename_i hlen <;>
    first
      | exact ⟨fun _ => hlen, fun _ => rfl⟩
      | exact ⟨fun h => absurd h
          (genLoop_ne_configError hexp hlog tan30 hsqrt m cave _ fuel n_blocks [] s),
          fun h => absurd h hlen⟩

/-- Helper: every block assembled at the exit of the per-block loop has
all of its fields computed from one (possibly extended) dimension
triple. -/
theorem genOneBlock_shape (hexp hlog : ℚ → ℚ) (tan30 : ℚ) (hsqrt : ℚ → ℚ) (m : RNG)
    (cave : CaveFace) (all_sets : List JointSet) (fuel : ℕ) (s : RState)
    (b : PrimaryBlock) (s2 : RState)
    (h : genOneBlock hexp hlog tan30 hsqrt m cave all_sets fuel s = some (b, s2)) :
    ∃ a1 b1 c1 J, b = mkPrimaryBlock a1 b1 c1 J := by
  simp only [genOneBlock] at h
  split at h
  · simp at h
  · split at h
    · simp at h
    · split at h
      · simp at h
      · simp only [Option.some.injEq, Prod.mk.injEq] at h
        exact ⟨_, _, _, _, h.1.symm⟩

/-- Helper: assembled primary blocks have positive volume and shape
factor at least 1. -/
theorem mkPrimaryBlock_bounds (a b c : ℚ) (J : ℕ) :
    0 < (mkPrimaryBlock a b c J).V ∧ 1 ≤ (mkPrimaryBlock a b c J).Omega := by
  constructor
  · show (0 : ℚ) < max 1e-6 (a * b * c)
    exact lt_of_lt_of_le (by norm_num) (le_max_left _ _)
  · show (1 : ℚ) ≤ omega_from_dims a b c
    rw [omega_from_dims]
    have h := le_max_left (1 : ℚ) (max a (max b c) / max 1e-6 (min a (min b c)))
    nlinarith

/-- Helper: a successful generation loop appends exactly one assembled
block per iteration. -/
theorem genLoop_ok (hexp hlog : ℚ → ℚ) (tan30 : ℚ) (hsqrt : ℚ → ℚ) (m : RNG)
    (cave : CaveFace) (all_sets : List JointSet) (fuel : ℕ) :
    ∀ (n : ℕ) (acc : List PrimaryBlock) (s : RState) (bs : List PrimaryBlock) (s2 : RState),
      genLoop hexp hlog tan30 hsqrt m cave all_sets fuel n acc s = GenResult.ok bs s2 →
      bs.length = acc.length + n ∧
        (∀ b ∈ bs, b ∈ acc ∨ ∃ a1 b1 c1 J, b = mkPrimaryBlock a1 b1 c1 J) := by
  intro n
  induction n with
  | zero =>
      intro acc s bs s2 h
      have hb : acc = bs := by
        have := h
        simp only [genLoop, GenResult.ok.injEq] at this
        exact this.1
      subst hb
      exact ⟨rfl, fun b hb2 => Or.inl hb2⟩
  | succ k ih =>
      intro acc s bs s2 h
      simp only [genLoop] at h
      rcases hg : genOneBlock hexp hlog tan30 hsqrt m cave all_sets fuel s with _ | ⟨b0, s1⟩
      · rw [hg] at h
        exact GenResult.noConfusion h
      · rw [hg] at h
        obtain ⟨hlen, hmem⟩ := ih (acc ++ [b0]) s1 bs s2 h
        constructor
        · rw [hlen, List.length_append, List.length_cons, List.length_nil]
          omega
        · intro b hb2
          rcases hmem b hb2 with hacc | hshape
          · rcases List.mem_append.mp hacc with h1 | h1
            · exact Or.inl h1
            · right
              have hb0 : b = b0 := List.mem_singleton.mp h1
              subst hb0
              exact genOneBlock_shape hexp hlog tan30 hsqrt m cave all_sets fuel s b s1 hg
          · exact Or.inr hshape

/-- Claim C5.  Whenever at least 3 usable joint sets are available and
the generator returns (it cannot raise, and the fuel-modelled
de-duplication retry loop succeeded), it returns exactly `n_blocks`
blocks, each with positive volume and shape factor at least 1. -/
theorem c5_generate_count_and_bounds (hexp hlog : ℚ → ℚ) (tan30 : ℚ) (hsqrt : ℚ → ℚ)
    (m : RNG) (n_blocks : ℕ) (rock : RockMass) (joints : List JointSet) (cave : CaveFace)
    (defaults : Defaults) (fuel : ℕ) (s : RState) (bs : List PrimaryBlock) (s2 : RState)
    (h3 : 3 ≤ (joints ++ (if cave.allow_stress_fractures then
        maybe_add_stress_fracture_set rock cave else [])).length)
    (hok : generate_primary_blocks hexp hlog tan30 hsqrt m n_blocks rock joints cave defaults
        fuel s = GenResult.ok bs s2) :
    bs.length = n_blocks ∧ ∀ b ∈ bs, 0 < b.V ∧ 1 ≤ b.Omega := by
  rw [generate_primary_blocks] at hok
  rw [if_neg (not_lt.mpr h3)] at hok
  obtain ⟨hlen, hmem⟩ := genLoop_ok hexp hlog tan30 hsqrt m cave _ fuel n_blocks [] s bs s2 hok
  refine ⟨by simpa using hlen, fun b hb => ?_⟩
  rcases hmem b hb with hin | ⟨a1, b1, c1, J, hshape⟩
  · simp at hin
  · rw [hshape]
    exact mkPrimaryBlock_bounds a1 b1 c1 J

set_option maxHeartbeats 2000000 in
/-- Helper: concrete evaluation of the generator on the C2 stream.  The
three sampled dimensions are 5/2, 3/2, 3/4; the first joint does not cut
and extends the largest dimension by a further 5/2 draw to 5; the block
is assembled from the extended triple (5, 3/2, 3/4). -/
theorem genC2_eval :
    generate_primary_blocks expC2 (fun _ => 0) (577 / 1000) sqrtZero rngC2 1 rockStd
      [jsA, jsB, jsC] caveNoSF defaultsStd 10 RState.init =
      GenResult.ok [⟨45 / 8, 1439 / 300, 1, 99 / 4, 5⟩] ⟨10, 0, 0, 0, 0⟩ := by
  have hB : pyChoices3 rngC2 (List.map (fun js => 1 / max 1e-6 (spacingMean js.spacing))
      [jsA, jsB, jsC]) RState.init = ([0, 1, 2], ⟨3, 0, 0, 0, 0⟩) := by
    norm_num [pyChoices3, cumsum, bisectRight, rngC2, RState.init, bumpRand, spacingMean,
      jsA, jsB, jsC, List.getLastD, max_def]
  have hC : dedupFirst [0, 1, 2] = [0, 1, 2] := by
    norm_num [dedupFirst, List.foldl]
  have hD : padIdxs rngC2 3 10 [0, 1, 2] ⟨3, 0, 0, 0, 0⟩ = some ([0, 1, 2], ⟨3, 0, 0, 0, 0⟩) := by
    rw [padIdxs]
    norm_num
  have hF : approximate_block_dims (fun _ => 0) rngC2 10 [jsA, jsB, jsC] ⟨3, 0, 0, 0, 0⟩ =
      some ([5 / 2, 3 / 2, 3 / 4], ⟨6, 0, 0, 0, 0⟩) := by
    norm_num [approximate_block_dims, sampleDims, sample_spacing, sample_uniform, jsA, jsB,
      jsC, rngC2, bumpRand, max_def,
      (by decide : ("uniform" : String) ≠ "trunc_exp"),
      (by decide : ("uniform" : String) ≠ "normal")]
  have hH : extLoop expC2 (fun _ => 0) (577 / 1000) sqrtZero rngC2 caveNoSF 10
      [(jsA, 5 / 2), (jsB, 3 / 2), (jsC, 3 / 4)] (5 / 2) (3 / 2) (3 / 4) 0 ⟨6, 0, 0, 0, 0⟩ =
      some (5, 3 / 2, 3 / 4, 1, ⟨10, 0, 0, 0, 0⟩) := by
    repeat (first
      | rfl
      | (rw [extLoop.eq_def]
         norm_num [prob_from_JC, piecewiseLinear, prob_weight_from_volume, shear_FOS, expC2,
           sqrtZero, caveNoSF, jsA, jsB, jsC, rngC2, bumpRand, sample_spacing, sample_uniform,
           max_def, min_def,
           (by decide : ("uniform" : String) ≠ "trunc_exp"),
           (by decide : ("uniform" : String) ≠ "normal")]))
  have hone : genOneBlock expC2 (fun _ => 0) (577 / 1000) sqrtZero rngC2 caveNoSF
      [jsA, jsB, jsC] 10 RState.init = some (⟨45 / 8, 1439 / 300, 1, 99 / 4, 5⟩,
      ⟨10, 0, 0, 0, 0⟩) := by
    rw [genOneBlock]
    rw [hB]
    norm_num [hC, hD, hF, hH, List.getD, mkPrimaryBlock, omega_from_dims, max_def, min_def]
  rw [generate_primary_blocks]
  rw [show caveNoSF.allow_stress_fractures = false from rfl]
  norm_num
  rw [genLoop]
  rw [hone]
  norm_num [genLoop]

set_option maxHeartbeats 2000000 in
/-- Helper: concrete evaluation of the generator on the all-zeros
stream.  All draws pick the smallest spacing of each set, no joint cuts,
and the assembled block has dimensions (2, 1, 1/2). -/
theorem genC5_eval :
    generate_primary_blocks expC2 (fun _ => 0) (577 / 1000) sqrtZero rngC5 1 rockStd
      [jsA, jsB, jsC] caveNoSF defaultsStd 10 RState.init =
      GenResult.ok [⟨1, 301 / 100, 0, 7, 2⟩] ⟨9, 0, 0, 0, 3⟩ := by
  have hB : pyChoices3 rngC5 (List.map (fun js => 1 / max 1e-6 (spacingMean js.spacing))
      [jsA, jsB, jsC]) RState.init = ([0, 0, 0], ⟨3, 0, 0, 0, 0⟩) := by
    norm_num [pyChoices3, cumsum, bisectRight, rngC5, RState.init, bumpRand, spacingMean,
      jsA, jsB, jsC, List.getLastD, max_def]
  have hC : dedupFirst [0, 0, 0] = [0] := by
    norm_num [dedupFirst, List.foldl]
  have hD : padIdxs rngC5 3 10 [0] ⟨3, 0, 0, 0, 0⟩ = some ([0, 1, 2], ⟨3, 0, 0, 0, 3⟩) := by
    repeat (first
      | rfl
      | (rw [padIdxs]
         norm_num [rngC5, dedupFirst, List.foldl, bumpRandr]))
  have hF : approximate_block_dims (fun _ => 0) rngC5 10 [jsA, jsB, jsC] ⟨3, 0, 0, 0, 3⟩ =
      some ([2, 1, 1 / 2], ⟨6, 0, 0, 0, 3⟩) := by
    norm_num [approximate_block_dims, sampleDims, sample_spacing, sample_uniform, jsA, jsB,
      jsC, rngC5, bumpRand, max_def,
      (by decide : ("uniform" : String) ≠ "trunc_exp"),
      (by decide : ("uniform" : String) ≠ "normal")]
  have hH : extLoop expC2 (fun _ => 0) (577 / 1000) sqrtZero rngC5 caveNoSF 10
      [(jsA, 2), (jsB, 1), (jsC, 1 / 2)] 2 1 (1 / 2) 0 ⟨6, 0, 0, 0, 3⟩ =
      some (2, 1, 1 / 2, 0, ⟨9, 0, 0, 0, 3⟩) := by
    repeat (first
      | rfl
      | (rw [extLoop.eq_def]
         norm_num [prob_from_JC, piecewiseLinear, prob_weight_from_volume, shear_FOS, expC2,
           sqrtZero, caveNoSF, jsA, jsB, jsC, rngC5, bumpRand, sample_spacing, sample_uniform,
           max_def, min_def,
           (by decide : ("uniform" : String) ≠ "trunc_exp"),
           (by decide : ("uniform" : String) ≠ "normal")]))
  have hone : genOneBlock expC2 (fun _ => 0) (577 / 1000) sqrtZero rngC5 caveNoSF
      [jsA, jsB, jsC] 10 RState.init = some (⟨1, 301 / 100, 0, 7, 2⟩, ⟨9, 0, 0, 0, 3⟩) := by
    rw [genOneBlock]
    rw [hB]
    norm_num [hC, hD, hF, hH, List.getD, mkPrimaryBlock, omega_from_dims, max_def, min_def]
  rw [generate_primary_blocks]
  rw [show caveNoSF.allow_stress_fractures = false from rfl]
  norm_num
  rw [genLoop]
  rw [hone]
  norm_num [genLoop]

/-- Witness for `c5_generate_count_and_bounds` on the all-zeros stream. -/
theorem c5_generate_count_and_bounds_witness :
    ([⟨1, 301 / 100, 0, 7, 2⟩] : List PrimaryBlock).length = 1 ∧
      ∀ b ∈ ([⟨1, 301 / 100, 0, 7, 2⟩] : List PrimaryBlock), 0 < b.V ∧ 1 ≤ b.Omega :=
  c5_generate_count_and_bounds expC2 (fun _ => 0) (577 / 1000) sqrtZero rngC5 1 rockStd
    [jsA, jsB, jsC] caveNoSF defaultsStd 10 RState.init _ _
    (by rw [show caveNoSF.allow_stress_fractures = false from rfl]; norm_num) genC5_eval

/-- Claim C2, counterexample.  On the concrete stream the originally
sampled spacing triple is (5/2, 3/2, 3/4); the first joint does not cut,
so the largest dimension is extended to 5 before assembly.  The returned
block's Omega is 1439/300 = 1 + 0.67·(5/(3/4) − 1), computed from the
extended triple, whereas the claim predicts
1 + 0.67·((5/2)/(3/4) − 1) = 769/300 from the pre-extension triple. -/
theorem c2_counterexample :
    generate_primary_blocks expC2 (fun _ => 0) (577 / 1000) sqrtZero rngC2 1 rockStd
      [jsA, jsB, jsC] caveNoSF defaultsStd 10 RState.init =
      GenResult.ok [⟨45 / 8, 1439 / 300, 1, 99 / 4, 5⟩] ⟨10, 0, 0, 0, 0⟩ ∧
    (1439 / 300 : ℚ) ≠ 1 + 0.67 * ((5 / 2) / (3 / 4) - 1) :=
  ⟨genC2_eval, by norm_num⟩

/-- Claim C2, amended.  Every generated block's Omega is
`1 + 0.67·(max/min − 1)` of the same possibly-extended dimension triple
that also determines its volume, area, and longest dimension — that is,
Omega is computed after the non-cutting-joint extensions, not from the
pre-extension sorted triple. -/
theorem c2_omega_from_extended_dims (hexp hlog : ℚ → ℚ) (tan30 : ℚ) (hsqrt : ℚ → ℚ)
    (m : RNG) (n_blocks : ℕ) (rock : RockMass) (joints : List JointSet) (cave : CaveFace)
    (defaults : Defaults) (fuel : ℕ) (s : RState) (bs : List PrimaryBlock) (s2 : RState)
    (hok : generate_primary_blocks hexp hlog tan30 hsqrt m n_blocks rock joints cave defaults
        fuel s = GenResult.ok bs s2) (b : PrimaryBlock) (hb : b ∈ bs) :
    ∃ a1 b1 c1, b.Omega = omega_from_dims a1 b1 c1 ∧ b.V = max 1e-6 (a1 * b1 * c1) ∧
      b.A = 2 * (a1 * b1 + b1 * c1 + c1 * a1) ∧ b.lambda_max = max a1 (max b1 c1) := by
  rw [generate_primary_blocks] at hok
  by_cases hlt : (joints ++ (if cave.allow_stress_fractures then
      maybe_add_stress_fracture_set rock cave else [])).length < 3
  · rw [if_pos hlt] at hok
    exact GenResult.noConfusion hok
  · rw [if_neg hlt] at hok
    obtain ⟨-, hmem⟩ := genLoop_ok hexp hlog tan30 hsqrt m cave _ fuel n_blocks [] s bs s2 hok
    rcases hmem b hb with hin | ⟨a1, b1, c1, J, hshape⟩
    · simp at hin
    · subst hshape
      exact ⟨a1, b1, c1, rfl, rfl, rfl, rfl⟩

/-- Witness for `c2_omega_from_extended_dims` at the concrete C2 run. -/
theorem c2_omega_from_extended_dims_witness :
    ∃ a1 b1 c1, (⟨45 / 8, 1439 / 300, 1, 99 / 4, 5⟩ : PrimaryBlock).Omega =
        omega_from_dims a1 b1 c1 ∧
      (⟨45 / 8, 1439 / 300, 1, 99 / 4, 5⟩ : PrimaryBlock).V = max 1e-6 (a1 * b1 * c1) ∧
      (⟨45 / 8, 1439 / 300, 1, 99 / 4, 5⟩ : PrimaryBlock).A =
        2 * (a1 * b1 + b1 * c1 + c1 * a1) ∧
      (⟨45 / 8, 1439 / 300, 1, 99 / 4, 5⟩ : PrimaryBlock).lambda_max = max a1 (max b1 c1) :=
  c2_omega_from_extended_dims expC2 (fun _ => 0) (577 / 1000) sqrtZero rngC2 1 rockStd
    [jsA, jsB, jsC] caveNoSF defaultsStd 10 RState.init _ _ genC2_eval _ (by simp)

/-- Helper: the per-entry stack loop of the secondary simulator
conserves mass: emitted volume plus accumulated fines equals the stack
volume plus what was already emitted and accumulated.  Each split moves
`V·f` into fines and leaves `2 · 0.5·V·(1−f)` in the two children. -/
theorem secLoop_mass (hexp hlog : ℚ → ℚ) (m : RNG) (IRS IBS RMS Fp Fr cushPct mu : ℚ) :
    ∀ (fuel : ℕ) (stack : List (ℚ × ℚ × ℕ × ℚ)) (out : List SecondaryBlock) (fines : ℚ)
      (s : RState) (out2 : List SecondaryBlock) (fines2 : ℚ) (s2 : RState),
      secLoop hexp hlog m IRS IBS RMS Fp Fr cushPct mu fuel stack out fines s =
        some (out2, fines2, s2) →
      (out2.map (fun b => b.V)).sum + fines2 =
        (stack.map (fun e => e.1)).sum + (out.map (fun b => b.V)).sum + fines := by
  intro fuel
  induction fuel with
  | zero =>
      intro stack out fines s out2 fines2 s2 h
      cases stack with
      | nil =>
          simp only [secLoop, Option.some.injEq, Prod.mk.injEq] at h
          obtain ⟨rfl, rfl, rfl⟩ := h
          simp
      | cons e rest => simp [secLoop] at h
  | succ k ih =>
      intro stack out fines s out2 fines2 s2 h
      cases stack with
      | nil =>
          simp only [secLoop, Option.some.injEq, Prod.mk.injEq] at h
          obtain ⟨rfl, rfl, rfl⟩ := h
          simp
      | cons e rest =>
          obtain ⟨V, Omega, J, z⟩ := e
          simp only [secLoop] at h
          split_ifs at h
          all_goals
            (have h2 := ih _ _ _ _ _ _ _ h
             simp only [List.map_cons, List.sum_cons, List.map_append, List.sum_append,
               List.map_nil, List.sum_nil] at h2 ⊢
             linear_combination h2)

/-- Helper: the per-primary-block loop conserves mass. -/
theorem primLoop_mass (hexp hlog : ℚ → ℚ) (m : RNG) (IRS IBS RMS Fp Fr cushPct mu dh : ℚ)
    (fuel : ℕ) :
    ∀ (blocks : List PrimaryBlock) (out : List SecondaryBlock) (fines : ℚ) (s : RState)
      (out2 : List SecondaryBlock) (fines2 : ℚ) (s2 : RState),
      primLoop hexp hlog m IRS IBS RMS Fp Fr cushPct mu dh fuel blocks out fines s =
        some (out2, fines2, s2) →
      (out2.map (fun b => b.V)).sum + fines2 =
        (blocks.map (fun b => b.V)).sum + (out.map (fun b => b.V)).sum + fines := by
  intro blocks
  induction blocks with
  | nil =>
      intro out fines s out2 fines2 s2 h
      simp only [primLoop, Option.some.injEq, Prod.mk.injEq] at h
      obtain ⟨rfl, rfl, rfl⟩ := h
      simp
  | cons blk rest ih =>
      intro out fines s out2 fines2 s2 h
      simp only [primLoop] at h
      rcases hs : secLoop hexp hlog m IRS IBS RMS Fp Fr cushPct mu fuel
          [(blk.V, blk.Omega, blk.joints_inside, dh)] out fines s with _ | ⟨out1, fines1, s1⟩
      · rw [hs] at h
        exact Option.noConfusion h
      · rw [hs] at h
        have h1 := secLoop_mass hexp hlog m IRS IBS RMS Fp Fr cushPct mu fuel _ _ _ _ _ _ _ hs
        have h2 := ih _ _ _ _ _ _ h
        simp only [List.map_cons, List.sum_cons, List.map_nil, List.sum_nil] at h1 h2 ⊢
        linear_combination h2 + h1

/-- Helper: replacing a valid index changes a mapped sum by the swap of
the old and new images. -/
theorem map_set_sum :
    ∀ (l : List SecondaryBlock) (i : ℕ) (nb : SecondaryBlock), i < l.length →
      ((l.set i nb).map (fun b => b.V)).sum =
        (l.map (fun b => b.V)).sum - (l.getD i default).V + nb.V := by
  intro l
  induction l with
  | nil => intro i nb h; simp at h
  | cons x xs ih =>
      intro i nb h
      cases i with
      | zero => simp [List.getD]; ring
      | succ j =>
          have hj : j < xs.length := by simpa using h
          have h2 := ih j nb hj
          simp only [List.set, List.map_cons, List.sum_cons, List.getD, List.get?] at h2 ⊢
          linear_combination h2

/-- Helper: the arching post-process conserves total volume: each
selected block is replaced by one half and the other half is appended. -/
theorem archLoop_sum :
    ∀ (idxs : List ℕ) (out : List SecondaryBlock), (∀ i ∈ idxs, i < out.length) →
      ((archLoop out idxs).map (fun b => b.V)).sum = (out.map (fun b => b.V)).sum := by
  intro idxs
  induction idxs with
  | nil => intro out hb; rfl
  | cons idx rest ih =>
      intro out hb
      simp only [archLoop]
      have hidx : idx < out.length := hb idx (List.mem_cons_self idx rest)
      have hrest : ∀ i ∈ rest,
          i < ((out.set idx (⟨0.5 * (out.getD idx default).V,
            max 1 (0.5 * (out.getD idx default).Omega),
            (out.getD idx default).joints_inside⟩ : SecondaryBlock)) ++
            [(⟨0.5 * (out.getD idx default).V, max 1 (0.5 * (out.getD idx default).Omega),
            (out.getD idx default).joints_inside⟩ : SecondaryBlock)]).length := by
        intro i hi
        have := hb i (List.mem_cons_of_mem idx hi)
        simp only [List.length_append, List.length_set, List.length_cons, List.length_nil]
        omega
      rw [ih _ hrest]
      simp only [List.map_append, List.sum_append, List.map_cons, List.sum_cons,
        List.map_nil, List.sum_nil]
      rw [map_set_sum out idx _ hidx]
      ring

/-- Claim C1.  For every primary block list, configuration, random
oracle, shuffle permutation, and choice of the transcendental-function
parameters, a completed `run_secondary` conserves mass exactly in the
rational model: the summed volume of the returned secondary blocks plus
the accumulated fines mass equals the summed volume of the input primary
blocks, the arching post-process included ("within floating tolerance"
is exact here because the embedding computes in ℚ). -/
theorem c1_mass_conservation (hexp hlog hpow10 : ℚ → ℚ) (m : RNG)
    (shuf : List SecondaryBlock → List SecondaryBlock)
    (prim_blocks : List PrimaryBlock) (rock : RockMass) (sec : SecondaryRun)
    (defaults : Defaults) (mu primary_fines : ℚ) (fuel : ℕ) (s : RState)
    (out : List SecondaryBlock) (fines fr : ℚ) (s2 : RState)
    (hshuf : ∀ l, List.Perm (shuf l) l)
    (h : run_secondary hexp hlog hpow10 m shuf prim_blocks rock sec defaults mu primary_fines
        fuel s = some (out, fines, fr, s2)) :
    (out.map (fun b => b.V)).sum + fines = (prim_blocks.map (fun b => b.V)).sum := by
  rw [run_secondary] at h
  rcases hp : primLoop hexp hlog m rock.IRS
      (rock.IBS.getD (compute_IBS rock.IRS rock.frac_freq rock.frac_condition))
      (compute_RMS hpow10 rock.MRMR rock.IRS ((IRS_to_IRSR rock.IRS : ℤ) : ℚ))
      (pressure_factor (cave_pressure_MPa rock.density
        (caved_height sec.draw_height sec.swell_factor) sec.active_draw_width
        sec.swell_factor))
      (draw_rate_factor hexp sec.rate_cm_day)
      (100 * primary_fines + sec.added_fines_pct) mu sec.draw_height fuel prim_blocks [] 0 s
    with _ | ⟨out0, fines0, s0⟩
  · rw [hp] at h
    exact Option.noConfusion h
  · rw [hp] at h
    simp only [Option.some.injEq, Prod.mk.injEq] at h
    obtain ⟨hout, hfines, -, -⟩ := h
    have hm := primLoop_mass hexp hlog m _ _ _ _ _ _ mu sec.draw_height fuel prim_blocks
      [] 0 s out0 fines0 s0 hp
    simp only [List.map_nil, List.sum_nil, add_zero] at hm
    have hperm : ((shuf out0).map (fun b => b.V)).sum = (out0.map (fun b => b.V)).sum :=
      ((hshuf out0).map (fun b => b.V)).sum_eq
    have hcand : ∀ i ∈ pySlice (pyInt (defaults.arching_pct *
        (((List.range (shuf out0).length).filter
          (fun i => decide ((2 : ℚ) < ((shuf out0).getD i default).V))).length : ℚ)))
        ((List.range (shuf out0).length).filter
          (fun i => decide ((2 : ℚ) < ((shuf out0).getD i default).V))),
        i < (shuf out0).length := by
      intro i hi
      have hi2 : i ∈ (List.range (shuf out0).length).filter
          (fun i => decide ((2 : ℚ) < ((shuf out0).getD i default).V)) := by
        rw [pySlice] at hi
        split_ifs at hi <;> exact List.take_subset _ _ hi
      exact List.mem_range.mp (List.mem_of_mem_filter hi2)
    rw [← hout]
    rw [archLoop_sum _ _ hcand, hperm, ← hfines]
    exact hm

set_option maxHeartbeats 2000000 in
/-- Helper: concrete evaluation of `run_secondary` on one unit block
with the all-zeros stream: the block splits once (fines fraction 1/20),
both halves of volume 19/40 are emitted, and arching selects nothing. -/
theorem runC1_eval :
    run_secondary (fun _ => 0) (fun _ => 0) (fun _ => 0) rngZero id
      [⟨1, 1, 0, 6, 1⟩] rockStd secC1 defaultsStd 10 0 5 RState.init =
      some ([⟨19 / 40, 1, 0⟩, ⟨19 / 40, 1, 0⟩], 1 / 20, 50000000 / 950000001,
        ⟨1, 0, 0, 0, 0⟩) := by
  have hprob : split_prob_from_Omega 1 false = 1 / 5 := by
    rw [split_prob_from_Omega]
    norm_num [table6, lookupFirstLe, List.getLastD]
  have hsec : secLoop (fun _ => 0) (fun _ => 0) rngZero 120 96 0 1 0 0 10 5
      [(1, 1, 0, 1)] [] 0 RState.init =
      some ([⟨19 / 40, 1, 0⟩, ⟨19 / 40, 1, 0⟩], 1 / 20, ⟨1, 0, 0, 0, 0⟩) := by
    repeat (first
      | rfl
      | (rw [secLoop]
         norm_num [hprob, cushioning_factor, rounding_fines_pct, rngZero, bumpRand,
           max_def, min_def]))
  rw [run_secondary]
  norm_num [rockStd, secC1, defaultsStd, compute_IBS, IRS_to_IRSR, compute_RMS, caved_height,
    cave_pressure_MPa, pressPairs, pressure_factor, draw_rate_factor, G_MPAPER_M, max_def,
    min_def, List.getLastD]
  rw [primLoop]
  norm_num [hsec]
  norm_num [primLoop, pyInt, pySlice, archLoop, List.range_succ, List.range_zero, List.getD]

/-- Witness for `c1_mass_conservation` on the concrete run: the two
half-blocks carry 19/20 of the unit mass and the fines carry 1/20. -/
theorem c1_mass_conservation_witness :
    (([⟨19 / 40, 1, 0⟩, ⟨19 / 40, 1, 0⟩] : List SecondaryBlock).map (fun b => b.V)).sum +
        (1 / 20 : ℚ) =
      (([⟨1, 1, 0, 6, 1⟩] : List PrimaryBlock).map (fun b => b.V)).sum :=
  c1_mass_conservation (fun _ => 0) (fun _ => 0) (fun _ => 0) rngZero id
    [⟨1, 1, 0, 6, 1⟩] rockStd secC1 defaultsStd 10 0 5 RState.init _ _ _ _
    (fun l => List.Perm.refl l) runC1_eval
